import Mathlib

/-!
Verification of the ADOR financial-entity extraction pipeline.

This file shallowly embeds the deterministic core of the repository
(`app/utils/text_utils.py`, `app/utils/regex_patterns.py`,
`app/services/chat_ner.py`, `app/services/docx_parser.py`,
`app/services/document_classifier.py`, `app/nlp/spacy_pipeline.py`,
`app/services/pdf_llm.py`, `app/services/document_router.py`) and proves the
specification claims about it.

Strings are modelled as `List Char` (`Str`). Python string predicates
(`str.isupper`, `str.isalpha`, `str.lower`, `str.strip`, `str.title`, the
`\s`/`\d`/`\w` regex classes) are modelled at ASCII scope, which covers every
value the specification and the repository's fixed tables mention. Python
floats are modelled as exact rationals `ℚ`; all score arithmetic in the
sources uses short decimal literals so the rational model mirrors the
intended arithmetic exactly.
-/

abbrev Str := List Char

/-- ASCII scope of Python's `\s` class / `str.strip` default character set:
space, tab, newline, carriage return, form feed, vertical tab. -/
def pyIsSpace (c : Char) : Bool :=
  c = ' ' || c = '\t' || c = '\n' || c = '\x0d' || c = '\x0c' || c = '\x0b'

/-- ASCII lowercase letter. -/
def isLowerAZ (c : Char) : Bool := 'a' ≤ c && c ≤ 'z'

/-- ASCII uppercase letter. -/
def isUpperAZ (c : Char) : Bool := 'A' ≤ c && c ≤ 'Z'

/-- ASCII letter (Python `str.isalpha` at ASCII scope, per character). -/
def isLetterAZ (c : Char) : Bool := isLowerAZ c || isUpperAZ c

/-- ASCII digit (Python `str.isdigit` at ASCII scope, per character). -/
def isDigit09 (c : Char) : Bool := '0' ≤ c && c ≤ '9'

/-- ASCII alphanumeric (Python `str.isalnum` at ASCII scope, per character). -/
def isAlnumAZ09 (c : Char) : Bool := isLetterAZ c || isDigit09 c

/-- ASCII word character: the regex `\w` class `[A-Za-z0-9_]`. -/
def isWordChar (c : Char) : Bool := isAlnumAZ09 c || c = '_'

/-- Python `str.lower` on one ASCII character. -/
def lowerChar (c : Char) : Char :=
  if isUpperAZ c then Char.ofNat (c.toNat + 32) else c

/-- Python `str.upper` on one ASCII character. -/
def upperChar (c : Char) : Char :=
  if isLowerAZ c then Char.ofNat (c.toNat - 32) else c

/-- Python `str.lower` (ASCII scope). -/
def pyLower (s : Str) : Str := s.map lowerChar

/-- Python `str.upper` (ASCII scope). -/
def pyUpper (s : Str) : Str := s.map upperChar

/-- Python `str.lstrip()` with the default whitespace set. -/
def pyLStrip (s : Str) : Str := s.dropWhile pyIsSpace

/-- Python `str.strip()` with the default whitespace set. -/
def pyStrip (s : Str) : Str := (pyLStrip ((pyLStrip s).reverse)).reverse

/-- Python `str.isupper` (ASCII scope): at least one cased character and no
lowercase cased character. -/
def pyIsUpper (s : Str) : Bool :=
  s.any isLetterAZ && s.all (fun c => !isLowerAZ c)

/-- Python `str.title` (ASCII scope): a cased character that follows a
non-cased character is uppercased, a cased character that follows a cased
character is lowercased. -/
def pyTitleAux (prevCased : Bool) : Str → Str
  | [] => []
  | c :: rest =>
    (if isLetterAZ c then (if prevCased then lowerChar c else upperChar c) else c)
      :: pyTitleAux (isLetterAZ c) rest

/-- Python `str.title` (ASCII scope). -/
def pyTitle (s : Str) : Str := pyTitleAux false s

/-- The substitution `re.sub(r'\s+', ' ', text)`: every maximal run of
whitespace becomes a single space. The flag records whether the previous
character was whitespace (i.e. whether we are inside a run already emitted). -/
def collapseWsAux (prevWs : Bool) : Str → Str
  | [] => []
  | c :: rest =>
    if pyIsSpace c then
      if prevWs then collapseWsAux true rest
      else ' ' :: collapseWsAux true rest
    else c :: collapseWsAux false rest

/-- The substitution `re.sub(r'\s+', ' ', text)`. -/
def collapseWs (s : Str) : Str := collapseWsAux false s

/-- Helper for the substitution `re.sub(r'\n\s*\n', '\n\n', text)`: try to
match the tail pattern `\s*\n` at the start of `s` as a backtracking regex
would, i.e. succeed iff the leading whitespace run of `s` contains a newline,
consuming up to and including the last newline of that run. Returns the
remaining input on success. -/
def matchWsNl (s : Str) : Option Str :=
  if '\n' ∈ s.takeWhile pyIsSpace then
    some (s.drop ((s.takeWhile pyIsSpace).length - 1 -
      ((s.takeWhile pyIsSpace).reverse.indexOf '\n') + 1))
  else none

/-- The substitution `re.sub(r'\n\s*\n', '\n\n', text)`: scan left to right;
at each `\n`, if the rest matches `\s*\n`, replace the whole match by two
newlines and continue after it. Recursion is on a fuel equal to the input
length, which is always sufficient because every step consumes at least one
input character. -/
def subDoubleNlAux : Nat → Str → Str
  | 0, s => s
  | _ + 1, [] => []
  | fuel + 1, c :: rest =>
    if c = '\n' then
      match matchWsNl rest with
      | some rest' => '\n' :: '\n' :: subDoubleNlAux fuel rest'
      | none => c :: subDoubleNlAux fuel rest
    else c :: subDoubleNlAux fuel rest

/-- The substitution `re.sub(r'\n\s*\n', '\n\n', text)`. -/
def subDoubleNl (s : Str) : Str := subDoubleNlAux s.length s

/-- `TextProcessor.clean_text`: collapse all whitespace runs (including line
breaks) to single spaces, strip the ends, then normalize double line breaks
(the last step is a no-op because the first step already removed every
newline, exactly as in the source). -/
def clean_text (s : Str) : Str := subDoubleNl (pyStrip (collapseWs s))

/-- `TextProcessor.normalize_entity`: collapse whitespace runs, title-case the
result if it is fully uppercase and longer than 3 characters, then strip. -/
def normalize_entity (s : Str) : Str :=
  let t := collapseWs s
  let t := if pyIsUpper t && decide (t.length > 3) then pyTitle t else t
  pyStrip t

/-! ## The entity map and the merge/dedup engine

An `EntityMap` models a Python `dict` from entity-type tag to a list of
string values: an association list whose entry order is the dict's insertion
order. All dicts built by the sources have unique keys; the embedding's
operations mirror dict-update semantics for any association list. -/

abbrev EntityMap := List (String × List Str)

/-- Dict-style append used by `ChatNER._merge_entities`: `merged.setdefault
(entity_type, []).extend(values)` — if the key is present extend its list in
place, otherwise add a new entry at the end. -/
def alistAppend (m : EntityMap) (k : String) (vs : List Str) : EntityMap :=
  match m with
  | [] => [(k, vs)]
  | (k', vs') :: rest =>
    if k' = k then (k', vs' ++ vs) :: rest
    else (k', vs') :: alistAppend rest k vs

/-- Python dict lookup: the value of the (first) entry with the given key. -/
def alookup (m : EntityMap) (k : String) : Option (List Str) :=
  match m with
  | [] => none
  | (k', vs) :: rest => if k' = k then some vs else alookup rest k

/-- The deduplication loop of `ChatNER._merge_entities`: walk the collected
values keeping a seen-set of trimmed lower-cased forms; the first occurrence
wins and is kept trimmed in its original casing. -/
def chatDedupAux (seen : List Str) : List Str → List Str
  | [] => []
  | v :: rest =>
    let key := pyLower (pyStrip v)
    if key ∈ seen then chatDedupAux seen rest
    else pyStrip v :: chatDedupAux (key :: seen) rest

/-- The collection loop of `ChatNER._merge_entities`: fold every entry of
every input map into one dict, concatenating value lists per entity type
(dict-insertion order, keys created on first sight). -/
def chatMergeCollect (dicts : List EntityMap) : EntityMap :=
  dicts.foldl (fun m d => d.foldl (fun m p => alistAppend m p.1 p.2) m) []

/-- `ChatNER._merge_entities`: concatenate the value lists of all input maps
per entity type (dict-insertion order, keys created on first sight), then
deduplicate each list by trimmed lower-cased form, first occurrence kept in
its original trimmed casing. Entity types are kept even when their value list
is empty. -/
def chat_merge_entities (dicts : List EntityMap) : EntityMap :=
  (chatMergeCollect dicts).map (fun p => (p.1, chatDedupAux [] p.2))

/-- The per-type deduplication loop of `DocxParser._merge_entities`: each raw
value is normalized with `TextProcessor.normalize_entity`; a normalized value
is kept when it is non-empty and its lower-cased form is unseen. -/
def docxDedupAux (seen : List Str) : List Str → List Str
  | [] => []
  | v :: rest =>
    let n := normalize_entity v
    if n ≠ [] ∧ pyLower n ∉ seen then
      n :: docxDedupAux (pyLower n :: seen) rest
    else docxDedupAux seen rest

/-- All entries of a list of maps, in input order. -/
def allEntries (dicts : List EntityMap) : List (String × List Str) := dicts.flatten

/-- The concatenation, in input order, of all value lists the input maps hold
for the entity type `t` (the inner loop of `DocxParser._merge_entities`, and
the per-type content accumulated by `ChatNER._merge_entities`). -/
def concatValues (dicts : List EntityMap) (t : String) : List Str :=
  ((allEntries dicts).filter (fun p => p.1 = t)).map (fun p => p.2) |>.flatten

/-- First-seen-order deduplication of a key list (accumulator = keys already
seen). -/
def dedupFirstAux (seen : List String) : List String → List String
  | [] => []
  | k :: rest =>
    if k ∈ seen then dedupFirstAux seen rest
    else k :: dedupFirstAux (k :: seen) rest

/-- The set of entity types present in any input map. The CPython source
iterates a `set`, whose iteration order is unspecified; the embedding fixes
first-seen order. No claim depends on the relative order of entity types in
the docx-merged map. -/
def docxAllTypes (dicts : List EntityMap) : List String :=
  dedupFirstAux [] ((allEntries dicts).map (fun p => p.1))

/-- `DocxParser._merge_entities`: for each entity type present in any input
map, normalize and deduplicate (by lower-cased normalized form) the
concatenation of all its value lists, dropping values that normalize to the
empty string; entity types whose resulting list is empty are dropped. -/
def docx_merge_entities (dicts : List EntityMap) : EntityMap :=
  (docxAllTypes dicts).filterMap (fun t =>
    let values := docxDedupAux [] (concatValues dicts t)
    if values.isEmpty then none else some (t, values))

/-! ## Post-processing (`ChatNER._post_process` and helpers) -/

/-- The abbreviation table of `ChatNER._expand_abbreviations`. -/
def abbreviations : List (Str × Str) :=
  [ ("GS".toList, "Goldman Sachs".toList)
  , ("MS".toList, "Morgan Stanley".toList)
  , ("JPM".toList, "JPMorgan".toList)
  , ("BAC".toList, "Bank of America".toList)
  , ("C".toList, "Citigroup".toList)
  , ("DB".toList, "Deutsche Bank".toList)
  , ("UBS".toList, "UBS Group".toList)
  , ("CS".toList, "Credit Suisse".toList)
  , ("HSBC".toList, "HSBC Holdings".toList)
  , ("BNP".toList, "BNP Paribas".toList) ]

/-- Lookup in the abbreviation table (Python `text.upper() in abbreviations`
followed by indexing). -/
def abbrevLookup (k : Str) : List (Str × Str) → Option Str
  | [] => none
  | e :: rest => if e.1 = k then some e.2 else abbrevLookup k rest

/-- `ChatNER._expand_abbreviations`: if the upper-cased value is a key of the
fixed table, return the expansion, else return the value unchanged. -/
def expand_abbreviations (text : Str) : Str :=
  match abbrevLookup (pyUpper text) abbreviations with
  | some expansion => expansion
  | none => text

/-- `ChatNER._validate_isin`: exactly 12 characters, first 2 alphabetic, next
9 alphanumeric, last 1 a digit (Python `str.isalpha`/`str.isalnum`/
`str.isdigit` require non-emptiness, which the length check guarantees). -/
def validate_isin (isin : Str) : Bool :=
  if isin.length ≠ 12 then false
  else if !((isin.take 2).all isLetterAZ) then false
  else if !(((isin.drop 2).take 9).all isAlnumAZ09) then false
  else if !(((isin.drop 11).take 1).all isDigit09) then false
  else true

/-- The per-value body of the loop in `ChatNER._post_process`: skip values
shorter than 2 characters, normalize, expand counterparty abbreviations,
silently drop isin values failing validation. -/
def postProcessValue (entity_type : String) (v : Str) : Option Str :=
  if v.length < 2 then none
  else
    let normalized := normalize_entity v
    let normalized :=
      if entity_type = "counterparty" then expand_abbreviations normalized
      else normalized
    if entity_type = "isin" && !validate_isin normalized then none
    else some normalized

/-- `ChatNER._post_process`: process every value of every entity type and
keep only entity types with a non-empty processed list. -/
def chat_post_process (entities : EntityMap) : EntityMap :=
  (entities.map (fun p => (p.1, p.2.filterMap (postProcessValue p.1)))).filter
    (fun p => !p.2.isEmpty)

/-! ## Recognizer confidence heuristic (`SpacyNERPipeline._get_confidence`)

Scores are exact rationals mirroring the decimal literals of the source. -/

/-- The base-confidence table of `SpacyNERPipeline._get_confidence`. -/
def confidence_map : List (String × ℚ) :=
  [ ("ORG", 85/100)
  , ("PERSON", 80/100)
  , ("MONEY", 90/100)
  , ("DATE", 85/100)
  , ("PERCENT", 88/100)
  , ("CARDINAL", 75/100)
  , ("GPE", 82/100)
  , ("PRODUCT", 78/100) ]

/-- Python `dict.get` with default on the confidence table. -/
def confLookup (k : String) : List (String × ℚ) → Option ℚ
  | [] => none
  | e :: rest => if e.1 = k then some e.2 else confLookup k rest

/-- Python `min` on two rationals (spelled out so that it reduces inside the
kernel). -/
def pyMin (a b : ℚ) : ℚ := if a ≤ b then a else b

/-- Python `max` on two rationals (spelled out so that it reduces inside the
kernel). -/
def pyMax (a b : ℚ) : ℚ := if b ≤ a then a else b

/-- `SpacyNERPipeline._get_confidence`: per-label base value (default `0.70`),
`+0.05` when the span text exceeds 15 characters, `-0.10` when it is under 3
characters, clamped to `[0.50, 0.95]`. -/
def get_confidence (label : String) (text : Str) : ℚ :=
  let base := (confLookup label confidence_map).getD (70/100)
  let base :=
    if text.length > 15 then base + 5/100
    else if text.length < 3 then base - 10/100
    else base
  pyMin (95/100) (pyMax (50/100) base)

/-! ## A small backtracking regex engine

The `re` patterns of the repository are fixed literals built from character
classes, counted greedy repetitions of character classes, literal strings
(optionally case-insensitive), ordered alternation, word boundaries `\b` and
one trailing capture group. `matchAtoms` implements Python `re`'s
leftmost/greedy backtracking search for exactly this fragment, by depth-first
search with ordered choice. Recursion is on a fuel bounding the recursion
depth; along any call chain each character-class atom contributes at most
`input length + 2` frames and every other atom one frame, so a fuel of
`1000 * (length + 2)` strictly dominates the depth for every pattern below
(their atom counts are far under 100) and the engine never exhausts it. -/

/-- One regex atom. `cls p lo hi` is a greedy counted repetition of a
character class (`hi = none` meaning unbounded); `lit cs ic` a literal,
case-insensitively when `ic`; `alts` an ordered alternation of sequences;
`wb` the word boundary `\b`; `grp` a capture group. -/
inductive Atom : Type where
  | lit (cs : Str) (ic : Bool)
  | cls (p : Char → Bool) (lo : Nat) (hi : Option Nat)
  | alts (xs : List (List Atom))
  | wb
  | grp (g : List Atom)

/-- Result of a match attempt: `fail` (no match), `out` (fuel exhausted —
never reached by the fixed patterns of this file, see the fuel bound above),
or success carrying the last consumed character, the remaining input, and the
capture of the group if one was crossed. -/
inductive MRes : Type where
  | fail
  | out
  | ok (prev : Option Char) (rest : Str) (cap : Option Str)

/-- Case-insensitive-or-not literal prefix match; returns the last consumed
character and the remaining input. -/
def litMatch (ic : Bool) (prev : Option Char) : Str → Str → Option (Option Char × Str)
  | [], s => some (prev, s)
  | _ :: _, [] => none
  | c :: cs, x :: xs =>
    if (if ic then lowerChar x = lowerChar c else x = c) then
      litMatch ic (some x) cs xs
    else none

/-- Word boundary `\b`: the word-ness of the previous character differs from
the word-ness of the next character (ends count as non-word). -/
def wbHolds (prev : Option Char) (s : Str) : Bool :=
  (match prev with | some c => isWordChar c | none => false)
    != (match s with | c :: _ => isWordChar c | [] => false)

/-- Count of leading characters of `s` in class `p`, capped at `hi`. -/
def countLeading (p : Char → Bool) (s : Str) (hi : Option Nat) : Nat :=
  match hi with
  | some h => min (s.takeWhile p).length h
  | none => (s.takeWhile p).length

/-- Last consumed character after consuming `k` characters of `s`. -/
def prevAfter (prev : Option Char) (s : Str) (k : Nat) : Option Char :=
  match (s.take k).getLast? with
  | some c => some c
  | none => prev

mutual

/-- Match a sequence of atoms against `s` (with `prev` the character just
before the current position), Python-style: leftmost alternative first,
greedy repetition with backtracking. -/
def matchAtoms : Nat → List Atom → Option Char → Str → MRes
  | 0, _, _, _ => .out
  | _ + 1, [], prev, s => .ok prev s none
  | fuel + 1, a :: rest, prev, s =>
    match a with
    | .lit cs ic =>
      match litMatch ic prev cs s with
      | some (prev', s') => matchAtoms fuel rest prev' s'
      | none => .fail
    | .wb =>
      if wbHolds prev s then matchAtoms fuel rest prev s else .fail
    | .cls p lo hi =>
      let n := countLeading p s hi
      if n < lo then .fail else tryCounts fuel p lo n rest prev s
    | .alts xs => tryAlts fuel xs rest prev s
    | .grp g =>
      match matchAtoms fuel g prev s with
      | .ok prev' s' _ =>
        match matchAtoms fuel rest prev' s' with
        | .ok prev'' s'' _ => .ok prev'' s'' (some (s.take (s.length - s'.length)))
        | r => r
      | r => r

/-- Greedy repetition: try consuming `k` characters (largest first, down to
`lo`), continuing with the remaining atoms; first success wins. -/
def tryCounts : Nat → (Char → Bool) → Nat → Nat → List Atom → Option Char → Str → MRes
  | 0, _, _, _, _, _, _ => .out
  | fuel + 1, p, lo, k, rest, prev, s =>
    match matchAtoms fuel rest (prevAfter prev s k) (s.drop k) with
    | .fail => if k ≤ lo then .fail else tryCounts fuel p lo (k - 1) rest prev s
    | r => r

/-- Ordered alternation: try each alternative (prepended to the remaining
atoms, so that later atoms can backtrack per alternative) in order. -/
def tryAlts : Nat → List (List Atom) → List Atom → Option Char → Str → MRes
  | 0, _, _, _, _ => .out
  | _ + 1, [], _, _, _ => .fail
  | fuel + 1, x :: xs, rest, prev, s =>
    match matchAtoms fuel (x ++ rest) prev s with
    | .fail => tryAlts fuel xs rest prev s
    | r => r

end

/-- Fuel that strictly dominates the matcher's recursion depth for every
pattern in this file (see the section comment). -/
def matchFuel (s : Str) : Nat := 1000 * (s.length + 2)

/-- One scan step of `re.findall`/`re.search`: try to match at the current
position; `emitted` is what a successful match contributes (the capture if
the pattern has a group, else the whole match). -/
def matchHere (atoms : List Atom) (prev : Option Char) (s : Str) :
    Option (Option Char × Str × Str) :=
  match matchAtoms (matchFuel s) atoms prev s with
  | .ok prev' s' cap =>
    some (prev', s', match cap with
      | some c => c
      | none => s.take (s.length - s'.length))
  | _ => none

/-- The scan loop of `re.findall`: non-overlapping matches left to right; an
empty match advances by one character (CPython behaviour). Fuel
`s.length + 1` is exact: every step consumes at least one character or ends
the scan. -/
def findAllAux (atoms : List Atom) : Nat → Option Char → Str → List Str
  | 0, _, _ => []
  | fuel + 1, prev, s =>
    match matchHere atoms prev s with
    | some (prev', s', item) =>
      if s'.length < s.length then item :: findAllAux atoms fuel prev' s'
      else
        match s with
        | [] => [item]
        | c :: cs => item :: findAllAux atoms fuel (some c) cs
    | none =>
      match s with
      | [] => []
      | c :: cs => findAllAux atoms fuel (some c) cs

/-- `pattern.findall(s)` for the modelled fragment. -/
def reFindAll (atoms : List Atom) (s : Str) : List Str :=
  findAllAux atoms (s.length + 1) none s

/-- `re.search(pattern, s) is not None` for the modelled fragment. -/
def reSearchAux (atoms : List Atom) : Nat → Option Char → Str → Bool
  | 0, _, _ => false
  | fuel + 1, prev, s =>
    match matchHere atoms prev s with
    | some _ => true
    | none =>
      match s with
      | [] => false
      | c :: cs => reSearchAux atoms fuel (some c) cs

/-- `re.search(pattern, s) is not None` for the modelled fragment. -/
def reSearch (atoms : List Atom) (s : Str) : Bool :=
  reSearchAux atoms (s.length + 1) none s

/-! ## The pattern library (`FinancialPatterns`) -/

/-- The class `[A-Z0-9]`. -/
def isUpperDigit (c : Char) : Bool := isUpperAZ c || isDigit09 c

/-- The class `[\d,]`. -/
def isDigitComma (c : Char) : Bool := isDigit09 c || c = ','

/-- The date separator class: dash or slash. -/
def isDateSep (c : Char) : Bool := c = '-' || c = '/'

/-- The class `[a-zA-Z\s&,\.]` of `COUNTERPARTY_KEYWORDS`. -/
def isCpChar (c : Char) : Bool :=
  isLetterAZ c || pyIsSpace c || c = '&' || c = ',' || c = '.'

/-- `FinancialPatterns.ISIN`: `\b[A-Z]{2}[A-Z0-9]{9}[0-9]\b`. -/
def patISIN : List Atom :=
  [ .wb, .cls isUpperAZ 2 (some 2), .cls isUpperDigit 9 (some 9)
  , .cls isDigit09 1 (some 1), .wb ]

/-- `FinancialPatterns.CURRENCY`:
`(?:USD|EUR|GBP|JPY|\$|€|£)\s*[\d,]+\.?\d*(?:M|K|B)?`, case-insensitive. -/
def patCURRENCY : List Atom :=
  [ .alts [ [.lit "USD".toList true], [.lit "EUR".toList true]
          , [.lit "GBP".toList true], [.lit "JPY".toList true]
          , [.lit "$".toList true], [.lit "€".toList true], [.lit "£".toList true] ]
  , .cls pyIsSpace 0 none, .cls isDigitComma 1 none
  , .cls (fun c => c = '.') 0 (some 1), .cls isDigit09 0 none
  , .alts [ [.lit "M".toList true], [.lit "K".toList true]
          , [.lit "B".toList true], [] ] ]

/-- `FinancialPatterns.DATE`, case-insensitive: a word-bounded alternation of
numeric day-month-year (1-2 digits, separator, 1-2 digits, separator, 2-4
digits), numeric year-month-day (4 digits, separator, 2 digits, separator, 2
digits), or month-name dates
`(?:Jan|Feb|Mar|Apr|May|Jun|Jul|Aug|Sep|Oct|Nov|Dec)[a-z]*\s+\d{1,2},?\s+\d{4}`,
with dash or slash separators. -/
def patDATE : List Atom :=
  [ .wb
  , .alts
      [ [ .cls isDigit09 1 (some 2), .cls isDateSep 1 (some 1)
        , .cls isDigit09 1 (some 2), .cls isDateSep 1 (some 1)
        , .cls isDigit09 2 (some 4) ]
      , [ .cls isDigit09 4 (some 4), .cls isDateSep 1 (some 1)
        , .cls isDigit09 2 (some 2), .cls isDateSep 1 (some 1)
        , .cls isDigit09 2 (some 2) ]
      , [ .alts [ [.lit "Jan".toList true], [.lit "Feb".toList true]
                , [.lit "Mar".toList true], [.lit "Apr".toList true]
                , [.lit "May".toList true], [.lit "Jun".toList true]
                , [.lit "Jul".toList true], [.lit "Aug".toList true]
                , [.lit "Sep".toList true], [.lit "Oct".toList true]
                , [.lit "Nov".toList true], [.lit "Dec".toList true] ]
        , .cls isLetterAZ 0 none, .cls pyIsSpace 1 none
        , .cls isDigit09 1 (some 2), .cls (fun c => c = ',') 0 (some 1)
        , .cls pyIsSpace 1 none, .cls isDigit09 4 (some 4) ] ]
  , .wb ]

/-- `FinancialPatterns.PERCENTAGE`: `\b\d+\.?\d*\s*%`. -/
def patPERCENTAGE : List Atom :=
  [ .wb, .cls isDigit09 1 none, .cls (fun c => c = '.') 0 (some 1)
  , .cls isDigit09 0 none, .cls pyIsSpace 0 none, .lit "%".toList false ]

/-- `FinancialPatterns.NOTIONAL_KEYWORDS`:
`(?:notional|principal|amount):\s*([\d,]+\.?\d*)`, case-insensitive. -/
def patNOTIONAL : List Atom :=
  [ .alts [ [.lit "notional".toList true], [.lit "principal".toList true]
          , [.lit "amount".toList true] ]
  , .lit ":".toList false, .cls pyIsSpace 0 none
  , .grp [ .cls isDigitComma 1 none, .cls (fun c => c = '.') 0 (some 1)
         , .cls isDigit09 0 none ] ]

/-- `FinancialPatterns.COUPON_KEYWORDS`:
`(?:coupon|interest\s+rate):\s*(\d+\.?\d*\s*%)`, case-insensitive. -/
def patCOUPON : List Atom :=
  [ .alts [ [.lit "coupon".toList true]
          , [.lit "interest".toList true, .cls pyIsSpace 1 none, .lit "rate".toList true] ]
  , .lit ":".toList false, .cls pyIsSpace 0 none
  , .grp [ .cls isDigit09 1 none, .cls (fun c => c = '.') 0 (some 1)
         , .cls isDigit09 0 none, .cls pyIsSpace 0 none, .lit "%".toList false ] ]

/-- `FinancialPatterns.MATURITY_KEYWORDS`:
`(?:maturity|expiry|expiration):\s*([^\n]+)`, case-insensitive. -/
def patMATURITY : List Atom :=
  [ .alts [ [.lit "maturity".toList true], [.lit "expiry".toList true]
          , [.lit "expiration".toList true] ]
  , .lit ":".toList false, .cls pyIsSpace 0 none
  , .grp [ .cls (fun c => c != '\n') 1 none ] ]

/-- `FinancialPatterns.COUNTERPARTY_KEYWORDS`:
`(?:counterparty|party|issuer):\s*([A-Z][a-zA-Z\s&,\.]+(?:Inc|LLC|Ltd|Corp|AG|SA|plc)?)`,
case-insensitive (so `[A-Z]` matches any letter). -/
def patCOUNTERPARTY : List Atom :=
  [ .alts [ [.lit "counterparty".toList true], [.lit "party".toList true]
          , [.lit "issuer".toList true] ]
  , .lit ":".toList false, .cls pyIsSpace 0 none
  , .grp [ .cls isLetterAZ 1 (some 1), .cls isCpChar 1 none
         , .alts [ [.lit "Inc".toList true], [.lit "LLC".toList true]
                 , [.lit "Ltd".toList true], [.lit "Corp".toList true]
                 , [.lit "AG".toList true], [.lit "SA".toList true]
                 , [.lit "plc".toList true], [] ] ] ]

/-- `FinancialPatterns.UNDERLYING_KEYWORDS`:
`(?:underlying|reference|asset):\s*([^\n]+)`, case-insensitive. -/
def patUNDERLYING : List Atom :=
  [ .alts [ [.lit "underlying".toList true], [.lit "reference".toList true]
          , [.lit "asset".toList true] ]
  , .lit ":".toList false, .cls pyIsSpace 0 none
  , .grp [ .cls (fun c => c != '\n') 1 none ] ]

/-- `FinancialPatterns.BARRIER_KEYWORDS`:
`(?:barrier|strike|trigger):\s*([\d,]+\.?\d*)`, case-insensitive. -/
def patBARRIER : List Atom :=
  [ .alts [ [.lit "barrier".toList true], [.lit "strike".toList true]
          , [.lit "trigger".toList true] ]
  , .lit ":".toList false, .cls pyIsSpace 0 none
  , .grp [ .cls isDigitComma 1 none, .cls (fun c => c = '.') 0 (some 1)
         , .cls isDigit09 0 none ] ]

/-- `FinancialPatterns.extract_all`: apply every pattern's `findall`,
returning the dict in source key order (empty match lists included). -/
def extract_all (text : Str) : EntityMap :=
  [ ("isin", reFindAll patISIN text)
  , ("currency_amounts", reFindAll patCURRENCY text)
  , ("dates", reFindAll patDATE text)
  , ("percentages", reFindAll patPERCENTAGE text)
  , ("notional", reFindAll patNOTIONAL text)
  , ("coupon", reFindAll patCOUPON text)
  , ("maturity", reFindAll patMATURITY text)
  , ("counterparty", reFindAll patCOUNTERPARTY text)
  , ("underlying", reFindAll patUNDERLYING text)
  , ("barrier", reFindAll patBARRIER text) ]

/-! ## The document classifier (`DocumentClassifier`) -/

/-- One entry of the classifier's fixed category table. -/
structure Category where
  name : String
  keywords : List Str
  patterns : List (List Atom)
  weight : ℚ

/-- The fixed category table of `DocumentClassifier.__init__`, in insertion
order. Patterns are lower-case literals because `classify` searches them in
the lower-cased text. -/
def categories : List Category :=
  [ { name := "term_sheet"
    , keywords := [ "term sheet".toList, "termsheet".toList
                  , "terms and conditions".toList, "product terms".toList ]
    , patterns := [ [.lit "term".toList false, .cls pyIsSpace 0 none, .lit "sheet".toList false]
                  , [.lit "final".toList false, .cls pyIsSpace 0 none, .lit "terms".toList false] ]
    , weight := 1 }
  , { name := "trade_confirmation"
    , keywords := [ "trade confirmation".toList, "trade date".toList
                  , "settlement date".toList, "confirmation".toList ]
    , patterns := [ [.lit "trade".toList false, .cls pyIsSpace 0 none, .lit "confirmation".toList false]
                  , [.lit "confirmation".toList false, .cls pyIsSpace 0 none, .lit "of".toList false
                    , .cls pyIsSpace 0 none, .lit "trade".toList false] ]
    , weight := 1 }
  , { name := "trading_chat"
    , keywords := [ "chat".toList, "conversation".toList, "message".toList, "meeting".toList ]
    , patterns := [ [.lit "[".toList false, .cls isDigit09 2 (some 2), .lit ":".toList false
                    , .cls isDigit09 2 (some 2), .lit "]".toList false]
                  , [.lit "[".toList false, .cls isDigit09 2 (some 2), .lit ":".toList false
                    , .cls isDigit09 2 (some 2), .lit ":".toList false
                    , .cls isDigit09 2 (some 2), .lit "]".toList false] ]
    , weight := 9/10 }
  , { name := "structured_note"
    , keywords := [ "structured note".toList, "structured product".toList
                  , "capital protected".toList, "autocall".toList
                  , "barrier".toList, "coupon".toList ]
    , patterns := [ [.lit "structured".toList false, .cls pyIsSpace 1 none, .lit "note".toList false]
                  , [.lit "capital".toList false, .cls pyIsSpace 1 none, .lit "protected".toList false] ]
    , weight := 95/100 }
  , { name := "contract"
    , keywords := [ "agreement".toList, "contract".toList, "isda".toList
                  , "master agreement".toList, "parties".toList ]
    , patterns := [ [.lit "this".toList false, .cls pyIsSpace 1 none, .lit "agreement".toList false]
                  , [.lit "master".toList false, .cls pyIsSpace 1 none, .lit "agreement".toList false] ]
    , weight := 85/100 }
  , { name := "invoice"
    , keywords := [ "invoice".toList, "bill".toList, "payment due".toList
                  , "total amount".toList, "invoice number".toList ]
    , patterns := [ [.lit "invoice".toList false, .cls pyIsSpace 0 none
                    , .cls (fun c => c = '#') 0 (some 1), .cls isDigit09 1 none]
                  , [.lit "payment".toList false, .cls pyIsSpace 1 none, .lit "due".toList false] ]
    , weight := 9/10 }
  , { name := "research_report"
    , keywords := [ "analysis".toList, "research".toList, "recommendation".toList
                  , "target price".toList, "outlook".toList ]
    , patterns := [ [.lit "price".toList false, .cls pyIsSpace 1 none, .lit "target".toList false]
                  , [.alts [ [.lit "buy".toList false], [.lit "sell".toList false]
                           , [.lit "hold".toList false, .cls pyIsSpace 1 none
                             , .lit "recommendation".toList false] ]] ]
    , weight := 8/10 }
  , { name := "general_financial"
    , keywords := [ "financial".toList, "finance".toList
                  , "investment".toList, "portfolio".toList ]
    , patterns := []
    , weight := 1/2 } ]

/-- Does `s` start with `p`? -/
def listStartsWith : Str → Str → Bool
  | [], _ => true
  | _ :: _, [] => false
  | c :: cs, x :: xs => c = x && listStartsWith cs xs

/-- Python substring containment `needle in hay` (contiguous). -/
def strContains (needle : Str) : Str → Bool
  | [] => needle.isEmpty
  | c :: rest => listStartsWith needle (c :: rest) || strContains needle rest

/-- Count of keywords occurring as substrings of the lower-cased text
(`sum(1 for kw in keywords if kw in text_lower)`). -/
def keywordHits (keywords : List Str) (textLower : Str) : Nat :=
  (keywords.filter (fun kw => strContains kw textLower)).length

/-- Count of patterns matching somewhere in the lower-cased text
(`sum(1 for pattern in patterns if re.search(pattern, text_lower))`). -/
def patternHits (patterns : List (List Atom)) (textLower : Str) : Nat :=
  (patterns.filter (fun pat => reSearch pat textLower)).length

/-- The base score loop of `DocumentClassifier.classify`:
`(keyword hits * 0.3 + pattern hits * 0.5) * weight` per category. -/
def baseScores (text : Str) : List (String × ℚ) :=
  let textLower := pyLower text
  categories.map (fun c =>
    (c.name, ((keywordHits c.keywords textLower) * (3/10)
      + (patternHits c.patterns textLower) * (1/2)) * c.weight))

/-- Is `entities[k]` present and non-empty (Python truthiness of
`k in entities and entities[k]`)? -/
def entNonempty (entities : EntityMap) (k : String) : Bool :=
  match alookup entities k with
  | some l => !l.isEmpty
  | none => false

/-- Add `delta` to the score of category `k` in place. All scores the source
bumps exist in the table, so the in-place map mirrors `scores[k] += delta`. -/
def bumpScore (scores : List (String × ℚ)) (k : String) (delta : ℚ) : List (String × ℚ) :=
  scores.map (fun p => if p.1 = k then (p.1, p.2 + delta) else p)

/-- `DocumentClassifier._adjust_with_entities`: the four fixed boost rules in
source order. -/
def adjust_with_entities (scores : List (String × ℚ)) (entities : EntityMap) :
    List (String × ℚ) :=
  let s := if entNonempty entities "isin" then
      bumpScore (bumpScore scores "structured_note" (1/2)) "trade_confirmation" (3/10)
    else scores
  let s := if entNonempty entities "trade_references" then
      bumpScore s "trade_confirmation" (3/5)
    else s
  let s := if (match alookup entities "person" with
      | some l => decide (l.length > 1)
      | none => false) then
      bumpScore s "trading_chat" (2/5)
    else s
  if entNonempty entities "coupon" && entNonempty entities "barrier" then
    bumpScore s "structured_note" (3/5)
  else s

/-- The score table `classify` works with: base scores, adjusted when an
entity map is supplied and non-empty (Python `if entities:` is false for both
`None` and the empty dict). -/
def classifyScores (text : Str) (entities : Option EntityMap) : List (String × ℚ) :=
  let scores := baseScores text
  match entities with
  | some e => if e.isEmpty then scores else adjust_with_entities scores e
  | none => scores

/-- Python `max` over pairs comparing the second component: strictly greater
replaces, so the first maximal element wins (both `max(scores.values())` and
`max(scores, key=scores.get)` are read off the result). -/
def pyMaxPair (best : String × ℚ) : List (String × ℚ) → String × ℚ
  | [] => best
  | q :: rest => pyMaxPair (if q.2 > best.2 then q else best) rest

/-- Insertion into a descending-sorted list: the inserted element goes before
the first element not strictly greater, i.e. before existing equals; since
`sortDesc` inserts earlier elements into the already-sorted later tail, this
is the stable placement. -/
def insertDesc (p : String × ℚ) : List (String × ℚ) → List (String × ℚ)
  | [] => [p]
  | q :: rest => if p.2 ≥ q.2 then p :: q :: rest else q :: insertDesc p rest

/-- Stable descending sort by score: the unique stable result, hence equal to
Python `sorted(scores.items(), key=lambda x: x[1], reverse=True)`. -/
def sortDesc : List (String × ℚ) → List (String × ℚ)
  | [] => []
  | p :: rest => insertDesc p (sortDesc rest)

/-- Round to the nearest integer, ties to even — CPython `round` on an exact
value. (CPython rounds the binary double nearest to the score; every score
difference the claims mention is far above the double-precision error, so the
exact-rational model is used throughout.) -/
def roundHalfEven (q : ℚ) : ℤ :=
  if q - q.floor < 1/2 then q.floor
  else if q - q.floor > 1/2 then q.floor + 1
  else if q.floor % 2 = 0 then q.floor else q.floor + 1

/-- Python `round(v, 2)` on the exact score. -/
def round2 (q : ℚ) : ℚ := (roundHalfEven (q * 100) : ℚ) / 100

/-- `DocumentClassifier._format_category_name`:
`category.replace('_', ' ').title()`. -/
def format_category_name (s : String) : String :=
  String.mk (pyTitle (s.toList.map (fun c => if c = '_' then ' ' else c)))

/-- The result record of `DocumentClassifier.classify`. -/
structure ClassificationResult where
  document_type : String
  all_scores : List (String × ℚ)
  deriving DecidableEq, Repr

/-- `DocumentClassifier.classify`: score each category, optionally adjust
with entity boosts; if the table is empty or its maximum is zero return the
sentinel `Unknown` with an empty table, else the arg-max category (first
maximal in insertion order) and the top 3 of the stable descending sort, with
formatted names and scores rounded to 2 decimal places. -/
def classify (text : Str) (entities : Option EntityMap) : ClassificationResult :=
  match classifyScores text entities with
  | [] => ⟨"Unknown", []⟩
  | p :: rest =>
    if (pyMaxPair p rest).2 = 0 then ⟨"Unknown", []⟩
    else
      ⟨format_category_name (pyMaxPair p rest).1,
        ((sortDesc (p :: rest)).take 3).map (fun q => (format_category_name q.1, round2 q.2))⟩

/-! ## The structured-document key-value extractor and parse pipeline
(`DocxParser`) -/

/-- Split at the first character satisfying `p`, as `re.split(cls, line, 1)`:
returns the parts before and after that character, or `none` when no such
character occurs. -/
def splitFirst (p : Char → Bool) : Str → Option (Str × Str)
  | [] => none
  | c :: rest =>
    if p c then some ([], rest)
    else
      match splitFirst p rest with
      | some (a, b) => some (c :: a, b)
      | none => none

/-- Does the key contain any of the given terms
(`any(term in key for term in [...])`)? -/
def keyHasAny (key : Str) (terms : List Str) : Bool :=
  terms.any (fun t => strContains t key)

/-- The per-line body of `DocxParser._extract_key_value_pairs`: strip the
line; if it contains a colon or dash, split at the first one, lower-case and
strip the left part, strip the right part, and append the raw right part to
the first entity type whose keyword set matches the left part. -/
def kvLine (m : EntityMap) (line : Str) : EntityMap :=
  let line := pyStrip line
  if ':' ∈ line ∨ '-' ∈ line then
    match splitFirst (fun c => c = ':' || c = '-') line with
    | some (lhs, rhs) =>
      let key := pyLower (pyStrip lhs)
      let value := pyStrip rhs
      if keyHasAny key ["counterparty".toList, "party".toList, "issuer".toList, "client".toList] then
        alistAppend m "counterparty" [value]
      else if keyHasAny key ["notional".toList, "principal".toList, "nominal".toList] then
        alistAppend m "notional" [value]
      else if keyHasAny key ["underlying".toList, "reference".toList, "asset".toList] then
        alistAppend m "underlying" [value]
      else if keyHasAny key ["maturity".toList, "expiry".toList, "expiration".toList] then
        alistAppend m "maturity" [value]
      else if keyHasAny key ["coupon".toList, "interest rate".toList] then
        alistAppend m "coupon" [value]
      else if keyHasAny key ["barrier".toList, "strike".toList, "trigger".toList] then
        alistAppend m "barrier" [value]
      else if keyHasAny key ["trade date".toList, "execution".toList] then
        alistAppend m "trade_date" [value]
      else if keyHasAny key ["payment frequency".toList, "frequency".toList] then
        alistAppend m "payment_frequency" [value]
      else m
    | none => m
  else m

/-- The initial entity dict of `DocxParser._extract_key_value_pairs`. -/
def kvInit : EntityMap :=
  [ ("counterparty", []), ("notional", []), ("underlying", []), ("maturity", [])
  , ("coupon", []), ("barrier", []), ("trade_date", []), ("payment_frequency", []) ]

/-- `DocxParser._extract_key_value_pairs`: scan the text line by line. -/
def extract_key_value_pairs (text : Str) : EntityMap :=
  (text.splitOn '\n' |>.foldl kvLine kvInit)

/-- The entity dict `DocxParser._extract_from_tables` returns for a document
without tables: the fixed keys, all with empty lists. -/
def tableEntitiesEmpty : EntityMap :=
  [ ("counterparty", []), ("notional", []), ("isin", []), ("underlying", [])
  , ("maturity", []), ("coupon", []), ("barrier", []), ("trade_date", [])
  , ("currency", []) ]

/-- `DocxParser.parse` on a document whose paragraphs carry the given text
and which contains no tables: clean the text (which collapses every line
break to a space), then merge the pattern-library extraction, the (empty)
table extraction and the key-value extraction, in source order. -/
def docxParseText (paragraphsText : Str) : EntityMap :=
  let full_text := clean_text paragraphsText
  docx_merge_entities
    [extract_all full_text, tableEntitiesEmpty, extract_key_value_pairs full_text]

/-! ## PDF extraction (`PdfLLM`) and routing (`DocumentRouter._process_pdf`) -/

/-- The sentinel values `_parse_llm_response` treats as "absent". -/
def llmSentinels : List Str :=
  [ "not found".toList, "n/a".toList, "none".toList, "-".toList
  , [], "not specified".toList ]

/-- The per-line body of `PdfLLM._parse_llm_response`: split at the first
colon, strip and lower-case the key, strip the value; ignore sentinel values
and unrecognized keys, else append the value to the mapped entity type
(`dict.setdefault(...).append(...)`). -/
def llmLine (m : EntityMap) (line : Str) : EntityMap :=
  if ':' ∈ line then
    match splitFirst (fun c => c = ':') line with
    | some (lhs, rhs) =>
      let key := pyLower (pyStrip lhs)
      let value := pyStrip rhs
      if pyLower value ∈ llmSentinels then m
      else if key ∈ ["counterparty".toList, "issuer".toList, "party".toList, "investor".toList] then
        alistAppend m "counterparty" [value]
      else if key ∈ ["notional".toList, "principal".toList, "amount".toList, "investment".toList] then
        alistAppend m "notional" [value]
      else if key = "isin".toList then
        alistAppend m "isin" [value]
      else if key ∈ ["underlying".toList, "reference".toList, "asset".toList, "instrument".toList] then
        alistAppend m "underlying" [value]
      else if key ∈ ["maturity".toList, "maturity_date".toList, "expiry".toList, "exit".toList] then
        alistAppend m "maturity" [value]
      else if key ∈ ["coupon".toList, "interest_rate".toList, "dividend".toList, "irr".toList, "return".toList] then
        alistAppend m "coupon" [value]
      else if key ∈ ["barrier".toList, "threshold".toList, "multiplier".toList] then
        alistAppend m "barrier" [value]
      else if key ∈ ["trade_date".toList, "issue_date".toList, "date".toList] then
        alistAppend m "trade_date" [value]
      else if key = "currency".toList then
        alistAppend m "currency" [value]
      else if key ∈ ["payment_frequency".toList, "frequency".toList] then
        alistAppend m "payment_frequency" [value]
      else if key ∈ ["strike_price".toList, "strike".toList] then
        alistAppend m "strike_price" [value]
      else m
    | none => m
  else m

/-- `PdfLLM._parse_llm_response`: strip the response, split into lines, and
process each line defensively. -/
def parse_llm_response (response_text : Str) : EntityMap :=
  ((pyStrip response_text).splitOn '\n').foldl llmLine []

/-- `PdfLLM._extract_with_patterns`: the deterministic fallback — the pattern
library with empty match lists dropped. -/
def extract_with_patterns (text : Str) : EntityMap :=
  (extract_all text).filter (fun p => !p.2.isEmpty)

/-- Outcome of the optional LLM collaborator: configured and answering with
a response text, or configured but raising on call. `Option LLMOutcome`
models `self.client` (`none` = no client configured). -/
inductive LLMOutcome : Type where
  | ok (response : Str)
  | err
  deriving DecidableEq

/-- The entity-extraction branch of `PdfLLM.extract` on already-extracted
page text: with a configured client, `_extract_with_llm` (whose `except`
branch falls back to `_extract_with_patterns`); without one, the pattern
fallback directly. -/
def pdf_extract_entities (client : Option LLMOutcome) (text : Str) : EntityMap :=
  match client with
  | some (.ok response) => parse_llm_response response
  | some .err => extract_with_patterns text
  | none => extract_with_patterns text

/-- The routing record `DocumentRouter._process_pdf` builds. -/
structure RouteResult where
  file_type : String
  filename : String
  method : String
  entities : EntityMap
  deriving DecidableEq

/-- `DocumentRouter._process_pdf`: extract entities via `PdfLLM.extract` and
tag the result; the `method` field is the constant `llm_rag` regardless of
which extraction strategy actually ran. -/
def process_pdf (client : Option LLMOutcome) (text : Str) (filename : String) :
    RouteResult :=
  { file_type := "pdf"
  , filename := filename
  , method := "llm_rag"
  , entities := pdf_extract_entities client text }

/-! ## Specification-side definitions

These definitions transcribe the specification's own words (for refinement
comparison against the source-derived definitions above); each doc comment
quotes the sentence it follows. -/

/-- Specification, merge contract (§4.4): "deduplicate by comparing each
value's trimmed, lower-cased form against a running seen-set; first
occurrence wins and is kept in its original (non-lower-cased, but trimmed)
casing" — phrased by filtering later duplicates away ahead of time. -/
def specFirstOccurrence : List Str → List Str
  | [] => []
  | v :: rest =>
    pyStrip v ::
      specFirstOccurrence
        (rest.filter (fun w => pyLower (pyStrip w) ≠ pyLower (pyStrip v)))
  termination_by l => l.length
  decreasing_by
    simp only [List.length_cons]
    exact Nat.lt_succ_of_le (rest.length_filter_le _)

/-- Specification, docx merge variant: first occurrence by lower-cased
normalized form wins and is kept normalized; values normalizing to the empty
string are dropped. -/
def specNormFirstOccurrence : List Str → List Str
  | [] => []
  | v :: rest =>
    if normalize_entity v = [] then specNormFirstOccurrence rest
    else
      normalize_entity v ::
        specNormFirstOccurrence
          (rest.filter (fun w =>
            pyLower (normalize_entity w) ≠ pyLower (normalize_entity v)))
  termination_by l => l.length
  decreasing_by
    · simp
    · simp only [List.length_cons]
      exact Nat.lt_succ_of_le (rest.length_filter_le _)

/-- Specification (§8, idempotence): an `EntityMap` "whose value lists are
already deduplicated (and normalized)": unique keys, and per type a non-empty
list of non-empty values each fixed by `normalize_entity`, no two equal
lower-cased. -/
def DedupedNormalizedMap (m : EntityMap) : Prop :=
  (m.map (fun p => p.1)).Nodup ∧
    ∀ p ∈ m, p.2 ≠ [] ∧ (∀ v ∈ p.2, normalize_entity v = v ∧ v ≠ []) ∧
      p.2.Pairwise (fun a b => pyLower a ≠ pyLower b)

/-- Specification, classifier boosts (§4.5): the total boost each category
receives from a supplied entity map, as one closed formula: any `isin` value
adds `+0.5` to `structured_note` and `+0.3` to `trade_confirmation`; any
`trade_references` value adds `+0.6` to `trade_confirmation`; more than one
`person` entity adds `+0.4` to `trading_chat`; non-empty `coupon` together
with non-empty `barrier` adds `+0.6` to `structured_note`. -/
def specBoost (name : String) (entities : EntityMap) : ℚ :=
  (if entNonempty entities "isin" then
    (if name = "structured_note" then 1/2 else 0)
      + (if name = "trade_confirmation" then 3/10 else 0) else 0)
  + (if entNonempty entities "trade_references" then
      (if name = "trade_confirmation" then 3/5 else 0) else 0)
  + (if (match alookup entities "person" with
      | some l => decide (l.length > 1)
      | none => false) then
      (if name = "trading_chat" then 2/5 else 0) else 0)
  + (if entNonempty entities "coupon" && entNonempty entities "barrier" then
      (if name = "structured_note" then 3/5 else 0) else 0)

/-- Specification (§4.5): `k` (with score `v`) is the arg-max of the score
table, ties broken by table order — `k` heads the table's maximal entries:
some entry equals `(k, v)`, every entry scores at most `v`, and every entry
before it scores strictly less. -/
def isFirstMax : List (String × ℚ) → String → ℚ → Bool
  | [], _, _ => false
  | p :: rest, k, v =>
    (p.1 = k && p.2 = v && rest.all (fun q => q.2 ≤ v))
      || (p.2 < v && isFirstMax rest k v)

/-- The §8 end-to-end scenario input text. -/
def scenarioText : Str :=
  "Counterparty: Goldman Sachs\nNotional: 200 mio\nISIN: US0378331005\nCoupon: 5%".toList

/-- Score-table lookup (Python `scores[category]`). -/
def qlookup : List (String × ℚ) → String → Option ℚ
  | [], _ => none
  | p :: rest, k => if p.1 = k then some p.2 else qlookup rest k

/-! ## Views of the merge engine used by the proofs -/

/-- Folding a flat entry list into a dict with `alistAppend` (the flattened
view of `chatMergeCollect`). -/
def foldEntries (acc : EntityMap) (flat : List (String × List Str)) : EntityMap :=
  flat.foldl (fun m p => alistAppend m p.1 p.2) acc

/-- The keys of a flat entry list, with multiplicity. -/
def flatKeys (flat : List (String × List Str)) : List String :=
  flat.map (fun p => p.1)

/-- The concatenation of the value lists of all entries with key `t`. -/
def flatConcat (flat : List (String × List Str)) (t : String) : List Str :=
  ((flat.filter (fun p => p.1 = t)).map (fun p => p.2)).flatten

/-! ## Basic lemmas about the string primitives -/

theorem dropWhile_idem {p : Char → Bool} {l : Str} :
    (l.dropWhile p).dropWhile p = l.dropWhile p := by
  induction l with
  | nil => rfl
  | cons c rest ih =>
    by_cases h : p c
    · simpa [List.dropWhile_cons, h] using ih
    · simp [List.dropWhile_cons, h]

theorem dropWhile_head_not {p : Char → Bool} {l : Str} {c : Char} {t : Str}
    (h : l.dropWhile p = c :: t) : p c = false := by
  induction l with
  | nil => simp at h
  | cons x rest ih =>
    by_cases hx : p x
    · exact ih (by simpa [List.dropWhile_cons, hx] using h)
    · rw [List.dropWhile_cons, if_neg (by simpa using hx)] at h
      cases h
      simpa using hx

theorem pyLStrip_pyStrip (s : Str) : pyLStrip (pyStrip s) = pyStrip s := by
  unfold pyStrip pyLStrip
  cases ha : s.dropWhile pyIsSpace with
  | nil => simp
  | cons c t =>
    have hc : pyIsSpace c = false := dropWhile_head_not ha
    have hb : (c :: t).reverse.dropWhile pyIsSpace
        = t.reverse.dropWhile pyIsSpace ++ [c] := by
      rw [List.reverse_cons, List.dropWhile_append]
      by_cases hempty : (t.reverse.dropWhile pyIsSpace).isEmpty
      · simp [hempty, List.dropWhile_cons, hc, List.isEmpty_iff.mp hempty]
      · simp [hempty]
    rw [hb, List.reverse_append]
    simp [List.dropWhile_cons, hc]

theorem pyLStrip_pyStrip_reverse (s : Str) :
    pyLStrip (pyStrip s).reverse = (pyStrip s).reverse := by
  unfold pyStrip
  rw [List.reverse_reverse]
  exact dropWhile_idem

theorem pyStrip_idem (s : Str) : pyStrip (pyStrip s) = pyStrip s := by
  show (pyLStrip ((pyLStrip (pyStrip s)).reverse)).reverse = pyStrip s
  rw [pyLStrip_pyStrip, pyLStrip_pyStrip_reverse, List.reverse_reverse]

theorem pyStrip_normalize (s : Str) :
    pyStrip (normalize_entity s) = normalize_entity s := by
  unfold normalize_entity
  exact pyStrip_idem _

theorem normalize_fix_strip {v : Str} (h : normalize_entity v = v) :
    pyStrip v = v := by
  conv_lhs => rw [← h]
  rw [pyStrip_normalize, h]

/-! ## Post-processing lemmas and claims C4, C5, C10 -/

theorem postProcess_isin_filter (vs : List Str) :
    vs.filterMap (postProcessValue "isin")
      = ((vs.filter (fun v => decide (2 ≤ v.length))).map normalize_entity).filter
          validate_isin := by
  induction vs with
  | nil => rfl
  | cons v rest ih =>
    simp only [List.filterMap_cons, List.filter_cons, List.map_cons, postProcessValue]
    by_cases h2 : v.length < 2
    · have h2' : ¬ (2 ≤ v.length) := by omega
      simp [h2, h2', ih]
    · have h2' : 2 ≤ v.length := by omega
      by_cases hv : validate_isin (normalize_entity v) <;>
        simp [h2, h2', hv, ih]

/-- C4: a value validates as an ISIN iff it has exactly 12 characters, the
first 2 alphabetic, the next 9 alphanumeric and the last a digit; the three
§8 examples behave as stated; and post-processing silently filters the isin
list by this validator (after the length-2 filter and normalization), never
raising an error. -/
theorem C4_isin_validation :
    (∀ s : Str, validate_isin s = true ↔
      (s.length = 12 ∧ (∀ c ∈ s.take 2, isLetterAZ c) ∧
        (∀ c ∈ (s.drop 2).take 9, isAlnumAZ09 c) ∧ (∀ c ∈ s.drop 11, isDigit09 c)))
    ∧ validate_isin "US0378331005".toList = true
    ∧ validate_isin "US037833100".toList = false
    ∧ validate_isin "12AB34567890".toList = false
    ∧ (∀ vs : List Str, vs.filterMap (postProcessValue "isin")
        = ((vs.filter (fun v => decide (2 ≤ v.length))).map normalize_entity).filter
            validate_isin) := by
  refine ⟨?_, by decide, by decide, by decide, postProcess_isin_filter⟩
  intro s
  unfold validate_isin
  by_cases h1 : s.length = 12
  · have hd : s.drop 11 = (s.drop 11).take 1 := by
      have : (s.drop 11).length = 1 := by simp [h1]
      rw [List.take_of_length_le (by omega)]
    constructor
    · intro h
      rw [if_neg (by omega)] at h
      split_ifs at h with h2 h3 h4
      refine ⟨h1, ?_, ?_, ?_⟩
      · simpa [List.all_eq_true] using h2
      · simpa [List.all_eq_true] using h3
      · rw [hd]
        simpa [List.all_eq_true] using h4
    · rintro ⟨-, ha, hb, hc⟩
      rw [if_neg (by omega)]
      rw [if_neg (by simpa [List.all_eq_true] using ha)]
      rw [if_neg (by simpa [List.all_eq_true] using hb)]
      rw [if_neg (by rw [← hd]; simpa [List.all_eq_true] using hc)]
  · constructor
    · intro h
      rw [if_pos (by omega)] at h
      exact absurd h (by simp)
    · rintro ⟨h, -⟩
      exact absurd h h1

/-- C5: normalization title-cases any value that is fully upper-case and
longer than 3 characters after whitespace collapsing, for every entity type;
the extracted ISIN `US0378331005` is emitted as `Us0378331005`, which still
passes ISIN validation, while the 3-character `USD` is left unchanged. -/
theorem C5_titlecase_normalization :
    (∀ s : Str, pyIsUpper (collapseWs s) = true → 3 < (collapseWs s).length →
      normalize_entity s = pyStrip (pyTitle (collapseWs s)))
    ∧ normalize_entity "US0378331005".toList = "Us0378331005".toList
    ∧ validate_isin (normalize_entity "US0378331005".toList) = true
    ∧ normalize_entity "USD".toList = "USD".toList
    ∧ ["US0378331005".toList].filterMap (postProcessValue "isin")
        = ["Us0378331005".toList] := by
  refine ⟨?_, by decide, by decide, by decide, by decide⟩
  intro s h1 h2
  show pyStrip (if (pyIsUpper (collapseWs s) && decide ((collapseWs s).length > 3)) = true
      then pyTitle (collapseWs s) else collapseWs s) = pyStrip (pyTitle (collapseWs s))
  rw [if_pos (by simp only [h1, Bool.true_and, decide_eq_true_eq]; omega)]

/-- C5 witness: the general title-casing branch applied at a concrete
input. -/
theorem C5_titlecase_normalization_witness :
    normalize_entity " DEUTSCHE BANK ".toList
      = pyStrip (pyTitle (collapseWs " DEUTSCHE BANK ".toList)) :=
  C5_titlecase_normalization.1 " DEUTSCHE BANK ".toList (by decide) (by decide)

theorem abbrevLookup_eq_none {k : Str} :
    ∀ {l : List (Str × Str)}, (∀ e ∈ l, k ≠ e.1) → abbrevLookup k l = none := by
  intro l
  induction l with
  | nil => intro _; rfl
  | cons e rest ih =>
    intro h
    have he : ¬ (e.1 = k) := fun hh => (h e (by simp)) hh.symm
    simp only [abbrevLookup, if_neg he]
    exact ih (fun x hx => h x (by simp [hx]))

/-- C10: the abbreviation table has exactly 10 entries; a counterparty value
whose upper-cased (hence case-insensitively compared) form equals a table key
is replaced by the expansion, any other value is returned unchanged; `GS`
(however cased) expands to `Goldman Sachs` and `Goldman Sachs` stays
unchanged; and the post-processing pipeline applies exactly this expansion to
every counterparty value that survives the length filter. -/
theorem C10_abbreviation_expansion :
    abbreviations.length = 10
    ∧ (∀ s : Str, ∀ e ∈ abbreviations, pyUpper s = e.1 →
        expand_abbreviations s = e.2)
    ∧ (∀ s : Str, (∀ e ∈ abbreviations, pyUpper s ≠ e.1) →
        expand_abbreviations s = s)
    ∧ expand_abbreviations "GS".toList = "Goldman Sachs".toList
    ∧ expand_abbreviations "gs".toList = "Goldman Sachs".toList
    ∧ expand_abbreviations "Goldman Sachs".toList = "Goldman Sachs".toList
    ∧ (∀ v : Str, postProcessValue "counterparty" v
        = if v.length < 2 then none
          else some (expand_abbreviations (normalize_entity v))) := by
  refine ⟨by decide, ?_, ?_, by decide, by decide, by decide, ?_⟩
  · intro s e he h
    fin_cases he <;> (unfold expand_abbreviations; rw [h]; rfl)
  · intro s h
    unfold expand_abbreviations
    rw [abbrevLookup_eq_none (fun e he => h e he)]
  · intro v
    by_cases h2 : v.length < 2
    · simp [postProcessValue, h2]
    · simp only [postProcessValue, if_neg h2]
      simp [show ("counterparty" = "isin") = False by simp]

/-- C10 witness: the expansion and identity branches applied at concrete
inputs. -/
theorem C10_abbreviation_expansion_witness :
    expand_abbreviations "Ubs".toList = "UBS Group".toList
    ∧ expand_abbreviations "Barclays".toList = "Barclays".toList :=
  ⟨C10_abbreviation_expansion.2.1 "Ubs".toList
      ("UBS".toList, "UBS Group".toList) (by decide) (by decide),
    C10_abbreviation_expansion.2.2.1 "Barclays".toList (by decide)⟩

/-! ## Claim C9: recognizer confidence heuristic -/

/-- C9: every confidence equals the per-label base (default `0.70` for unseen
labels) plus `+0.05` above 15 characters or `-0.10` below 3 characters,
clamped to `[0.50, 0.95]`; an `ORG` span of length 20 scores exactly
`min(0.95, 0.85+0.05) = 0.90`; an unseen-label span of length 2 scores
exactly `max(0.50, 0.70-0.10) = 0.60`; and the base table has 8 entries, all
between `0.70` and `0.90`. -/
theorem C9_confidence_heuristic :
    (∀ (label : String) (text : Str),
      get_confidence label text
        = min (95/100) (max (50/100)
            (((confLookup label confidence_map).getD (70/100))
              + (if text.length > 15 then 5/100
                 else if text.length < 3 then -(10/100) else 0)))
      ∧ 1/2 ≤ get_confidence label text ∧ get_confidence label text ≤ 19/20)
    ∧ get_confidence "ORG" (List.replicate 20 'a') = 9/10
    ∧ (9/10 : ℚ) = min (95/100) (85/100 + 5/100)
    ∧ (∀ label : String, ∀ text : Str, confLookup label confidence_map = none →
        text.length = 2 → get_confidence label text = 3/5)
    ∧ (3/5 : ℚ) = max (50/100) (70/100 - 10/100)
    ∧ confidence_map.length = 8
    ∧ (∀ p ∈ confidence_map, 7/10 ≤ p.2 ∧ p.2 ≤ 9/10) := by
  have hmin : ∀ a b : ℚ, pyMin a b = min a b := by
    intro a b; rw [pyMin, min_def]
  have hmax : ∀ a b : ℚ, pyMax a b = max a b := by
    intro a b
    rw [pyMax, max_def]
    rcases le_or_lt b a with h | h
    · rcases eq_or_lt_of_le h with rfl | hlt
      · simp
      · rw [if_pos h, if_neg (by exact not_le.mpr hlt)]
    · rw [if_neg (by exact not_le.mpr h), if_pos h.le]
  have hconf : ∀ (label : String) (text : Str),
      get_confidence label text
        = min (95/100) (max (50/100)
            (((confLookup label confidence_map).getD (70/100))
              + (if text.length > 15 then 5/100
                 else if text.length < 3 then -(10/100) else 0))) := by
    intro label text
    show pyMin (95/100) (pyMax (50/100)
      (if text.length > 15 then (confLookup label confidence_map).getD (70/100) + 5/100
       else if text.length < 3 then (confLookup label confidence_map).getD (70/100) - 10/100
       else (confLookup label confidence_map).getD (70/100))) = _
    rw [hmin, hmax]
    split_ifs <;> ring_nf
  refine ⟨?_, ?_, by norm_num, ?_, by norm_num, by rfl, ?_⟩
  · intro label text
    refine ⟨hconf label text, ?_, ?_⟩
    · rw [hconf, min_def, max_def]
      split_ifs <;> linarith
    · rw [hconf, min_def, max_def]
      split_ifs <;> linarith
  · rw [hconf]
    have : confLookup "ORG" confidence_map = some (85/100) := by rfl
    rw [this]
    norm_num
  · intro label text hnone hlen
    rw [hconf, hnone]
    rw [if_neg (by omega), if_pos (by omega)]
    norm_num
  · intro p hp
    fin_cases hp <;> norm_num

/-- C9 witness: the unseen-label branch applied at a concrete label and
span. -/
theorem C9_confidence_heuristic_witness :
    get_confidence "WORK_OF_ART" ['o', 'k'] = 3/5 :=
  C9_confidence_heuristic.2.2.2.1 "WORK_OF_ART" ['o', 'k'] (by decide) (by decide)

/-! ## Claim C6: PDF fallback and the extraction-method tag -/

/-- C6 counterexample: with no LLM client configured the PDF route falls back
to the pattern path (its entities are exactly the pattern extraction), yet
the route's `method` tag is still the LLM tag `llm_rag` — identical to the
tag of a run in which the LLM really did produce the entities — so the tag
does not reflect the strategy actually used. -/
theorem C6_method_tag_counterexample :
    (process_pdf none scenarioText "doc.pdf").entities
        = extract_with_patterns scenarioText
    ∧ (process_pdf none scenarioText "doc.pdf").entities
        ≠ (process_pdf (some (.ok "COUPON: 9%".toList)) scenarioText "doc.pdf").entities
    ∧ (process_pdf none scenarioText "doc.pdf").method = "llm_rag"
    ∧ (process_pdf (some (.ok "COUPON: 9%".toList)) scenarioText "doc.pdf").method
        = "llm_rag" := by
  refine ⟨rfl, ?_, rfl, rfl⟩
  decide

/-- C6 amended: when the LLM collaborator is absent or its call errors, PDF
extraction falls back to the deterministic pattern path without surfacing a
failure; however the `extraction_method` tag of the routing result is the
constant `llm_rag` regardless of which strategy actually ran. -/
theorem C6_pdf_fallback_amended :
    ∀ (client : Option LLMOutcome) (text : Str) (filename : String),
      ((client = none ∨ client = some .err) →
        (process_pdf client text filename).entities = extract_with_patterns text)
      ∧ (process_pdf client text filename).method = "llm_rag" := by
  intro client text filename
  refine ⟨?_, rfl⟩
  rintro (rfl | rfl) <;> rfl

/-- C6 amended witness: the fallback branch applied to a concrete erroring
client. -/
theorem C6_pdf_fallback_amended_witness :
    (process_pdf (some .err) "Coupon: 5%".toList "a.pdf").entities
        = extract_with_patterns "Coupon: 5%".toList
    ∧ (process_pdf (some .err) "Coupon: 5%".toList "a.pdf").method = "llm_rag" :=
  ⟨(C6_pdf_fallback_amended (some .err) "Coupon: 5%".toList "a.pdf").1 (Or.inr rfl),
    (C6_pdf_fallback_amended (some .err) "Coupon: 5%".toList "a.pdf").2⟩

/-! ## Claim C2: the §8 end-to-end scenario -/

/-- C2 counterexample: on the §8 scenario text, the structured-document
pipeline (whose `clean_text` collapses the line breaks before the key-value
scanner splits on them) does not produce `counterparty = ["Goldman Sachs"]`
nor `isin = ["US0378331005"]`: the counterparty list carries the
concatenated-line noise values, and the merged ISIN is title-cased by
`normalize_entity`. -/
theorem C2_scenario_counterexample :
    alookup (docxParseText scenarioText) "counterparty"
        = some [ "Goldman Sachs Notional".toList
               , "Goldman Sachs Notional: 200 mio ISIN: US0378331005 Coupon: 5%".toList ]
    ∧ alookup (docxParseText scenarioText) "counterparty"
        ≠ some ["Goldman Sachs".toList]
    ∧ alookup (docxParseText scenarioText) "isin" = some ["Us0378331005".toList]
    ∧ alookup (docxParseText scenarioText) "isin" ≠ some ["US0378331005".toList] := by
  refine ⟨by decide, by decide, by decide, by decide⟩

/-- C2 amended: the full entity map the structured-document pipeline produces
on the §8 scenario text: notional `["200"]` and coupon `["5%"]` as the claim
allows, but isin title-cased to `["Us0378331005"]`, a `percentages` entry
`["5%"]`, and a counterparty list holding the two concatenated-line noise
values instead of `["Goldman Sachs"]`. -/
theorem C2_scenario_amended :
    docxParseText scenarioText
      = [ ("isin", ["Us0378331005".toList])
        , ("percentages", ["5%".toList])
        , ("notional", ["200".toList])
        , ("coupon", ["5%".toList])
        , ("counterparty",
            [ "Goldman Sachs Notional".toList
            , "Goldman Sachs Notional: 200 mio ISIN: US0378331005 Coupon: 5%".toList ]) ] := by
  decide

/-! ## Merge-engine lemmas -/

theorem alistAppend_keys (m : EntityMap) (k : String) (vs : List Str) :
    (alistAppend m k vs).map (fun p => p.1)
      = if k ∈ m.map (fun p => p.1) then m.map (fun p => p.1)
        else m.map (fun p => p.1) ++ [k] := by
  induction m with
  | nil => simp [alistAppend]
  | cons e rest ih =>
    simp only [alistAppend, List.map_cons]
    by_cases h : e.1 = k
    · rw [if_pos h, if_pos (by simp [h])]
      simp
    · rw [if_neg h, List.map_cons, ih]
      by_cases hk : k ∈ rest.map (fun p => p.1)
      · rw [if_pos hk, if_pos (by simp [hk])]
      · rw [if_neg hk, if_neg (by
          simp only [List.mem_cons]
          push_neg
          exact ⟨fun hh => h hh.symm, hk⟩)]
        simp

theorem alistAppend_alookup (m : EntityMap) (k : String) (vs : List Str) (t : String) :
    alookup (alistAppend m k vs) t
      = if t = k then some (((alookup m k).getD []) ++ vs) else alookup m t := by
  induction m with
  | nil =>
    by_cases h : t = k
    · simp [alistAppend, alookup, h]
    · have h' : ¬ (k = t) := fun hh => h hh.symm
      simp [alistAppend, alookup, h, h']
  | cons e rest ih =>
    simp only [alistAppend]
    by_cases hek : e.1 = k
    · rw [if_pos hek]
      by_cases htk : t = k
      · rw [if_pos htk]
        have h1 : e.1 = t := hek.trans htk.symm
        simp [alookup, h1, hek, htk]
      · rw [if_neg htk]
        have hnet : ¬ (e.1 = t) := fun hh => htk (hh.symm.trans hek)
        simp [alookup, hnet]
    · rw [if_neg hek]
      by_cases het : e.1 = t
      · have htk : ¬ (t = k) := fun hh => hek (het.symm ▸ hh)
        simp [alookup, het, htk]
      · simp only [alookup, if_neg het, ih]
        by_cases htk : t = k
        · rw [if_pos htk, if_pos htk]
          simp [hek]
        · rw [if_neg htk, if_neg htk]

theorem dedupFirstAux_congr :
    ∀ (l : List String) {s1 s2 : List String}, (∀ x, x ∈ s1 ↔ x ∈ s2) →
      dedupFirstAux s1 l = dedupFirstAux s2 l := by
  intro l
  induction l with
  | nil => intro s1 s2 _; rfl
  | cons k rest ih =>
    intro s1 s2 h
    by_cases hk : k ∈ s1
    · rw [dedupFirstAux, if_pos hk, dedupFirstAux, if_pos ((h k).mp hk)]
      exact ih h
    · rw [dedupFirstAux, if_neg hk, dedupFirstAux, if_neg (fun hh => hk ((h k).mpr hh))]
      refine congrArg _ (ih ?_)
      intro x
      simp only [List.mem_cons]
      exact or_congr Iff.rfl (h x)

theorem flatConcat_cons (p : String × List Str) (flat : List (String × List Str))
    (t : String) :
    flatConcat (p :: flat) t
      = if p.1 = t then p.2 ++ flatConcat flat t else flatConcat flat t := by
  by_cases h : p.1 = t <;> simp [flatConcat, h]

theorem foldEntries_keys :
    ∀ (flat : List (String × List Str)) (acc : EntityMap),
      (foldEntries acc flat).map (fun p => p.1)
        = acc.map (fun p => p.1)
            ++ dedupFirstAux (acc.map (fun p => p.1)) (flatKeys flat) := by
  intro flat
  induction flat with
  | nil => intro acc; simp [foldEntries, flatKeys, dedupFirstAux]
  | cons p rest ih =>
    intro acc
    have hstep : foldEntries acc (p :: rest) = foldEntries (alistAppend acc p.1 p.2) rest := rfl
    rw [hstep, ih, alistAppend_keys]
    by_cases hk : p.1 ∈ acc.map (fun q => q.1)
    · rw [if_pos hk]
      have : dedupFirstAux (acc.map (fun q => q.1)) (flatKeys (p :: rest))
          = dedupFirstAux (acc.map (fun q => q.1)) (flatKeys rest) := by
        show dedupFirstAux _ (p.1 :: flatKeys rest) = _
        rw [dedupFirstAux, if_pos hk]
      rw [this]
    · rw [if_neg hk]
      have h1 : dedupFirstAux (acc.map (fun q => q.1)) (flatKeys (p :: rest))
          = p.1 :: dedupFirstAux (p.1 :: acc.map (fun q => q.1)) (flatKeys rest) := by
        show dedupFirstAux _ (p.1 :: flatKeys rest) = _
        rw [dedupFirstAux, if_neg hk]
      have h2 : dedupFirstAux (acc.map (fun q => q.1) ++ [p.1]) (flatKeys rest)
          = dedupFirstAux (p.1 :: acc.map (fun q => q.1)) (flatKeys rest) := by
        refine dedupFirstAux_congr _ ?_
        intro x
        simp [List.mem_append, List.mem_cons, or_comm]
      rw [h1, h2]
      simp

theorem foldEntries_alookup :
    ∀ (flat : List (String × List Str)) (acc : EntityMap) (t : String),
      alookup (foldEntries acc flat) t
        = match alookup acc t with
          | some vs => some (vs ++ flatConcat flat t)
          | none => if t ∈ flatKeys flat then some (flatConcat flat t) else none := by
  intro flat
  induction flat with
  | nil =>
    intro acc t
    cases h : alookup acc t <;> simp [foldEntries, flatKeys, flatConcat, h]
  | cons p rest ih =>
    intro acc t
    have hstep : foldEntries acc (p :: rest) = foldEntries (alistAppend acc p.1 p.2) rest := rfl
    rw [hstep, ih, flatConcat_cons]
    have hkeys : flatKeys (p :: rest) = p.1 :: flatKeys rest := rfl
    rw [hkeys, alistAppend_alookup]
    by_cases htp : t = p.1
    · rw [if_pos htp, if_pos (htp ▸ rfl : p.1 = t)]
      cases h : alookup acc t with
      | some vs =>
        rw [htp] at h
        simp [h, htp]
      | none =>
        rw [htp] at h
        simp [h, htp]
    · have hpt : ¬ (p.1 = t) := fun hh => htp hh.symm
      rw [if_neg htp, if_neg hpt]
      cases h : alookup acc t with
      | some vs => simp [h]
      | none => simp [h, htp]

theorem chatMergeCollect_eq_foldEntries (dicts : List EntityMap) :
    chatMergeCollect dicts = foldEntries [] (allEntries dicts) := by
  have hgen : ∀ (ds : List EntityMap) (acc : EntityMap),
      ds.foldl (fun m d => d.foldl (fun m p => alistAppend m p.1 p.2) m) acc
        = foldEntries acc ds.flatten := by
    intro ds
    induction ds with
    | nil => intro acc; rfl
    | cons d rest ih =>
      intro acc
      simp only [List.foldl_cons, List.flatten_cons, foldEntries, List.foldl_append]
      exact ih _
  exact hgen dicts []

theorem alookup_map_values (f : String → List Str → List Str) :
    ∀ (m : EntityMap) (t : String),
      alookup (m.map (fun p => (p.1, f p.1 p.2))) t = (alookup m t).map (f t) := by
  intro m
  induction m with
  | nil => intro t; rfl
  | cons e rest ih =>
    intro t
    by_cases h : e.1 = t
    · simp [alookup, h]
    · simp [alookup, h, ih]

theorem chatDedupAux_eq_spec :
    ∀ (l : List Str) (seen : List Str),
      chatDedupAux seen l
        = specFirstOccurrence (l.filter (fun v => pyLower (pyStrip v) ∉ seen)) := by
  intro l
  induction l with
  | nil => intro seen; simp [chatDedupAux, specFirstOccurrence]
  | cons v rest ih =>
    intro seen
    by_cases hv : pyLower (pyStrip v) ∈ seen
    · rw [chatDedupAux, if_pos hv, ih]
      have : (List.filter (fun v => decide (pyLower (pyStrip v) ∉ seen)) (v :: rest))
          = rest.filter (fun v => decide (pyLower (pyStrip v) ∉ seen)) := by
        rw [List.filter_cons, if_neg (by simpa using hv)]
      rw [this]
    · rw [chatDedupAux, if_neg hv, ih]
      have hkeep : (List.filter (fun v => decide (pyLower (pyStrip v) ∉ seen)) (v :: rest))
          = v :: rest.filter (fun v => decide (pyLower (pyStrip v) ∉ seen)) := by
        rw [List.filter_cons, if_pos (by simpa using hv)]
      rw [hkeep]
      simp only [specFirstOccurrence, List.filter_filter]
      refine congrArg _ (congrArg _ (List.filter_congr ?_))
      intro a _
      by_cases h1 : pyLower (pyStrip a) = pyLower (pyStrip v)
      · simp [h1, hv]
      · by_cases h2 : pyLower (pyStrip a) ∈ seen <;> simp [h1, h2]

theorem docxDedupAux_eq_spec :
    ∀ (l : List Str) (seen : List Str),
      docxDedupAux seen l
        = specNormFirstOccurrence
            (l.filter (fun v => pyLower (normalize_entity v) ∉ seen)) := by
  intro l
  induction l with
  | nil => intro seen; simp [docxDedupAux, specNormFirstOccurrence]
  | cons v rest ih =>
    intro seen
    by_cases hv : pyLower (normalize_entity v) ∈ seen
    · rw [docxDedupAux, if_neg (by simp [hv]), ih]
      have : (List.filter (fun v => decide (pyLower (normalize_entity v) ∉ seen)) (v :: rest))
          = rest.filter (fun v => decide (pyLower (normalize_entity v) ∉ seen)) := by
        rw [List.filter_cons, if_neg (by simpa using hv)]
      rw [this]
    · have hkeep : (List.filter (fun v => decide (pyLower (normalize_entity v) ∉ seen)) (v :: rest))
          = v :: rest.filter (fun v => decide (pyLower (normalize_entity v) ∉ seen)) := by
        rw [List.filter_cons, if_pos (by simpa using hv)]
      by_cases hn : normalize_entity v = []
      · rw [docxDedupAux, if_neg (by simp [hn]), ih, hkeep]
        simp only [specNormFirstOccurrence]
        rw [if_pos hn]
      · rw [docxDedupAux, if_pos ⟨hn, hv⟩, ih, hkeep]
        simp only [specNormFirstOccurrence, List.filter_filter]
        rw [if_neg hn]
        refine congrArg _ (congrArg _ (List.filter_congr ?_))
        intro a _
        by_cases h1 : pyLower (normalize_entity a) = pyLower (normalize_entity v)
        · simp [h1, hv]
        · by_cases h2 : pyLower (normalize_entity a) ∈ seen <;> simp [h1, h2]

theorem specFirstOccurrence_mem :
    ∀ (n : Nat) (l : List Str), l.length ≤ n →
      ∀ x ∈ specFirstOccurrence l, ∃ v ∈ l, x = pyStrip v := by
  intro n
  induction n with
  | zero =>
    intro l hl x hx
    rw [List.length_eq_zero.mp (Nat.le_zero.mp hl)] at hx
    simp [specFirstOccurrence] at hx
  | succ n ih =>
    intro l hl x hx
    cases l with
    | nil => simp [specFirstOccurrence] at hx
    | cons v rest =>
      simp only [specFirstOccurrence, List.mem_cons] at hx
      rcases hx with hx | hx
      · exact ⟨v, by simp, hx⟩
      · have hlen : (rest.filter
            (fun w => pyLower (pyStrip w) ≠ pyLower (pyStrip v))).length ≤ n := by
          have h1 := rest.length_filter_le
            (fun w => decide (pyLower (pyStrip w) ≠ pyLower (pyStrip v)))
          simp only [List.length_cons] at hl
          omega
        obtain ⟨w, hw, hxw⟩ := ih _ hlen x hx
        exact ⟨w, List.mem_cons_of_mem v (List.mem_of_mem_filter hw), hxw⟩

theorem specFirstOccurrence_pairwise :
    ∀ (n : Nat) (l : List Str), l.length ≤ n →
      (specFirstOccurrence l).Pairwise
        (fun a b => pyLower (pyStrip a) ≠ pyLower (pyStrip b)) := by
  intro n
  induction n with
  | zero =>
    intro l hl
    rw [List.length_eq_zero.mp (Nat.le_zero.mp hl)]
    simp [specFirstOccurrence]
  | succ n ih =>
    intro l hl
    cases l with
    | nil => simp [specFirstOccurrence]
    | cons v rest =>
      have hlen : (rest.filter
          (fun w => pyLower (pyStrip w) ≠ pyLower (pyStrip v))).length ≤ n := by
        have h1 := rest.length_filter_le
          (fun w => decide (pyLower (pyStrip w) ≠ pyLower (pyStrip v)))
        simp only [List.length_cons] at hl
        omega
      simp only [specFirstOccurrence]
      refine List.Pairwise.cons ?_ (ih _ hlen)
      intro y hy
      obtain ⟨w, hw, rfl⟩ := specFirstOccurrence_mem n _ hlen y hy
      have hwne : pyLower (pyStrip w) ≠ pyLower (pyStrip v) := by
        have := List.of_mem_filter hw
        simpa using this
      rw [pyStrip_idem, pyStrip_idem]
      exact fun hh => hwne hh.symm |>.elim

theorem specNormFirstOccurrence_mem :
    ∀ (n : Nat) (l : List Str), l.length ≤ n →
      ∀ x ∈ specNormFirstOccurrence l, ∃ v ∈ l, x = normalize_entity v ∧ x ≠ [] := by
  intro n
  induction n with
  | zero =>
    intro l hl x hx
    rw [List.length_eq_zero.mp (Nat.le_zero.mp hl)] at hx
    simp [specNormFirstOccurrence] at hx
  | succ n ih =>
    intro l hl x hx
    cases l with
    | nil => simp [specNormFirstOccurrence] at hx
    | cons v rest =>
      simp only [List.length_cons] at hl
      by_cases hn : normalize_entity v = []
      · rw [show specNormFirstOccurrence (v :: rest) = specNormFirstOccurrence rest by
          simp only [specNormFirstOccurrence]; rw [if_pos hn]] at hx
        obtain ⟨w, hw, hxw⟩ := ih rest (by omega) x hx
        exact ⟨w, List.mem_cons_of_mem v hw, hxw⟩
      · rw [show specNormFirstOccurrence (v :: rest)
            = normalize_entity v :: specNormFirstOccurrence
                (rest.filter (fun w =>
                  pyLower (normalize_entity w) ≠ pyLower (normalize_entity v))) by
          simp only [specNormFirstOccurrence]; rw [if_neg hn]] at hx
        rcases List.mem_cons.mp hx with hx | hx
        · exact ⟨v, by simp, hx, hx ▸ hn⟩
        · have hlen : (rest.filter (fun w =>
              pyLower (normalize_entity w) ≠ pyLower (normalize_entity v))).length ≤ n := by
            have h1 := rest.length_filter_le
              (fun w => decide (pyLower (normalize_entity w) ≠ pyLower (normalize_entity v)))
            omega
          obtain ⟨w, hw, hxw⟩ := ih _ hlen x hx
          exact ⟨w, List.mem_cons_of_mem v (List.mem_of_mem_filter hw), hxw⟩

theorem specNormFirstOccurrence_pairwise :
    ∀ (n : Nat) (l : List Str), l.length ≤ n →
      (specNormFirstOccurrence l).Pairwise (fun a b => pyLower a ≠ pyLower b) := by
  intro n
  induction n with
  | zero =>
    intro l hl
    rw [List.length_eq_zero.mp (Nat.le_zero.mp hl)]
    simp [specNormFirstOccurrence]
  | succ n ih =>
    intro l hl
    cases l with
    | nil => simp [specNormFirstOccurrence]
    | cons v rest =>
      simp only [List.length_cons] at hl
      by_cases hn : normalize_entity v = []
      · rw [show specNormFirstOccurrence (v :: rest) = specNormFirstOccurrence rest by
          simp only [specNormFirstOccurrence]; rw [if_pos hn]]
        exact ih rest (by omega)
      · have hlen : (rest.filter (fun w =>
            pyLower (normalize_entity w) ≠ pyLower (normalize_entity v))).length ≤ n := by
          have h1 := rest.length_filter_le
            (fun w => decide (pyLower (normalize_entity w) ≠ pyLower (normalize_entity v)))
          omega
        rw [show specNormFirstOccurrence (v :: rest)
            = normalize_entity v :: specNormFirstOccurrence
                (rest.filter (fun w =>
                  pyLower (normalize_entity w) ≠ pyLower (normalize_entity v))) by
          simp only [specNormFirstOccurrence]; rw [if_neg hn]]
        refine List.Pairwise.cons ?_ (ih _ hlen)
        intro y hy
        obtain ⟨w, hw, rfl, -⟩ := specNormFirstOccurrence_mem n _ hlen y hy
        have hwne : pyLower (normalize_entity w) ≠ pyLower (normalize_entity v) := by
          have := List.of_mem_filter hw
          simpa using this
        exact fun hh => hwne hh.symm |>.elim

theorem mem_dedupFirstAux :
    ∀ (l : List String) (seen : List String) (x : String),
      x ∈ dedupFirstAux seen l ↔ (x ∈ l ∧ x ∉ seen) := by
  intro l
  induction l with
  | nil => intro seen x; simp [dedupFirstAux]
  | cons k rest ih =>
    intro seen x
    by_cases hk : k ∈ seen
    · rw [dedupFirstAux, if_pos hk, ih]
      constructor
      · rintro ⟨hx, hs⟩
        exact ⟨List.mem_cons_of_mem k hx, hs⟩
      · rintro ⟨hx, hs⟩
        rcases List.mem_cons.mp hx with rfl | hx
        · exact absurd hk hs
        · exact ⟨hx, hs⟩
    · rw [dedupFirstAux, if_neg hk]
      simp only [List.mem_cons, ih, List.mem_cons]
      constructor
      · rintro (rfl | ⟨hx, hs⟩)
        · exact ⟨Or.inl rfl, hk⟩
        · exact ⟨Or.inr hx, fun hh => hs (by simp [hh])⟩
      · rintro ⟨rfl | hx, hs⟩
        · exact Or.inl rfl
        · by_cases hxk : x = k
          · exact Or.inl hxk
          · exact Or.inr ⟨hx, fun hh => by
              rcases hh with hh | hh
              · exact hxk hh
              · exact hs hh⟩

theorem dedupFirstAux_nodup :
    ∀ (l : List String) (seen : List String), (dedupFirstAux seen l).Nodup := by
  intro l
  induction l with
  | nil => intro seen; simp [dedupFirstAux]
  | cons k rest ih =>
    intro seen
    by_cases hk : k ∈ seen
    · rw [dedupFirstAux, if_pos hk]; exact ih seen
    · rw [dedupFirstAux, if_neg hk]
      refine List.Nodup.cons ?_ (ih (k :: seen))
      intro hmem
      exact ((mem_dedupFirstAux rest (k :: seen) k).mp hmem).2 (by simp)

theorem docxAllTypes_nodup (dicts : List EntityMap) : (docxAllTypes dicts).Nodup :=
  dedupFirstAux_nodup _ _

theorem dedupFirstAux_eq_self :
    ∀ (l : List String) (seen : List String), l.Nodup → (∀ x ∈ l, x ∉ seen) →
      dedupFirstAux seen l = l := by
  intro l
  induction l with
  | nil => intro seen _ _; rfl
  | cons k rest ih =>
    intro seen hnd hdisj
    rw [dedupFirstAux, if_neg (hdisj k (by simp))]
    refine congrArg _ (ih (k :: seen) hnd.of_cons ?_)
    intro x hx hmem
    rcases List.mem_cons.mp hmem with rfl | hmem
    · exact (List.nodup_cons.mp hnd).1 hx
    · exact hdisj x (List.mem_cons_of_mem k hx) hmem

theorem dedupFirstAux_eq_nil :
    ∀ (l : List String) (seen : List String), (∀ x ∈ l, x ∈ seen) →
      dedupFirstAux seen l = [] := by
  intro l
  induction l with
  | nil => intro seen _; rfl
  | cons k rest ih =>
    intro seen hall
    rw [dedupFirstAux, if_pos (hall k (by simp))]
    exact ih seen (fun x hx => hall x (List.mem_cons_of_mem k hx))

theorem alookup_docx_shape :
    ∀ (keys : List String) (g : String → List Str) (t : String), keys.Nodup →
      alookup (keys.filterMap (fun k =>
          if (g k).isEmpty then none else some (k, g k))) t
        = if t ∈ keys ∧ ¬ (g t).isEmpty then some (g t) else none := by
  intro keys
  induction keys with
  | nil =>
    intro g t _
    simp [alookup]
  | cons k ks ih =>
    intro g t hnd
    rw [List.filterMap_cons]
    by_cases hek : (g k).isEmpty
    · rw [if_pos hek, ih g t hnd.of_cons]
      by_cases htk : t = k
      · subst htk
        rw [if_neg (by rintro ⟨hmem, -⟩; exact (List.nodup_cons.mp hnd).1 hmem),
          if_neg (by rintro ⟨-, hne⟩; exact hne hek)]
      · by_cases hc : t ∈ ks ∧ ¬ (g t).isEmpty
        · rw [if_pos hc, if_pos ⟨List.mem_cons_of_mem k hc.1, hc.2⟩]
        · rw [if_neg hc, if_neg (by
            rintro ⟨hmem, hne⟩
            rcases List.mem_cons.mp hmem with rfl | hmem
            · exact htk rfl
            · exact hc ⟨hmem, hne⟩)]
    · rw [if_neg hek]
      by_cases htk : t = k
      · subst htk
        rw [show alookup ((t, g t) :: ks.filterMap (fun k =>
            if (g k).isEmpty then none else some (k, g k))) t
            = some (g t) by simp [alookup]]
        rw [if_pos ⟨by simp, hek⟩]
      · have hkt : ¬ (k = t) := fun hh => htk hh.symm
        rw [show alookup ((k, g k) :: ks.filterMap (fun k' =>
            if (g k').isEmpty then none else some (k', g k'))) t
            = alookup (ks.filterMap (fun k' =>
                if (g k').isEmpty then none else some (k', g k'))) t by
          simp only [alookup]
          rw [if_neg hkt]]
        rw [ih g t hnd.of_cons]
        by_cases hc : t ∈ ks ∧ ¬ (g t).isEmpty
        · rw [if_pos hc, if_pos ⟨List.mem_cons_of_mem k hc.1, hc.2⟩]
        · rw [if_neg hc, if_neg (by
            rintro ⟨hmem, hne⟩
            rcases List.mem_cons.mp hmem with rfl | hmem
            · exact htk rfl
            · exact hc ⟨hmem, hne⟩)]

theorem chatDedupAux_nil (l : List Str) : chatDedupAux [] l = specFirstOccurrence l := by
  rw [chatDedupAux_eq_spec]
  refine congrArg _ (List.filter_eq_self.mpr ?_)
  intro a _
  simp

theorem docxDedupAux_nil (l : List Str) :
    docxDedupAux [] l = specNormFirstOccurrence l := by
  rw [docxDedupAux_eq_spec]
  refine congrArg _ (List.filter_eq_self.mpr ?_)
  intro a _
  simp

theorem chat_merge_keys (dicts : List EntityMap) :
    (chat_merge_entities dicts).map (fun p => p.1) = docxAllTypes dicts := by
  unfold chat_merge_entities
  rw [List.map_map]
  have h1 : ((fun p : String × List Str => p.1)
      ∘ (fun p : String × List Str => (p.1, chatDedupAux [] p.2)))
      = fun p : String × List Str => p.1 := rfl
  rw [h1, chatMergeCollect_eq_foldEntries, foldEntries_keys]
  rfl

theorem chat_merge_alookup (dicts : List EntityMap) (t : String) :
    alookup (chat_merge_entities dicts) t
      = if t ∈ flatKeys (allEntries dicts) then
          some (chatDedupAux [] (concatValues dicts t)) else none := by
  unfold chat_merge_entities
  rw [show (fun p : String × List Str => (p.1, chatDedupAux [] p.2))
      = (fun p : String × List Str =>
          (p.1, (fun _ vs => chatDedupAux [] vs) p.1 p.2)) from rfl]
  rw [alookup_map_values (fun _ vs => chatDedupAux [] vs),
    chatMergeCollect_eq_foldEntries, foldEntries_alookup]
  have hnil : alookup [] t = none := rfl
  rw [hnil]
  by_cases h : t ∈ flatKeys (allEntries dicts)
  · rw [if_pos h, if_pos h]
    rfl
  · rw [if_neg h, if_neg h]
    rfl

theorem docx_merge_alookup (dicts : List EntityMap) (t : String) :
    alookup (docx_merge_entities dicts) t
      = if t ∈ docxAllTypes dicts ∧ ¬ (docxDedupAux [] (concatValues dicts t)).isEmpty
        then some (docxDedupAux [] (concatValues dicts t)) else none :=
  alookup_docx_shape (docxAllTypes dicts)
    (fun t => docxDedupAux [] (concatValues dicts t)) t (docxAllTypes_nodup dicts)

/-- C1 counterexample: the two merge implementations each violate one part of
the claim. `ChatNER._merge_entities` keeps an entity type whose (filtered)
value list is empty — the type is present in the output mapped to `[]` — and
`DocxParser._merge_entities` does not keep the first occurrence in its
original trimmed casing: the fully-uppercase input value `ABCD` (already
trimmed, `pyStrip` fixes it) is stored title-cased as `Abcd`. -/
theorem C1_merge_contract_counterexample :
    chat_merge_entities [[("isin", [])]] = [("isin", [])]
    ∧ docx_merge_entities [[("counterparty", ["ABCD".toList])]]
        = [("counterparty", ["Abcd".toList])]
    ∧ "Abcd".toList ≠ "ABCD".toList
    ∧ pyStrip "ABCD".toList = "ABCD".toList :=
  ⟨by decide, by decide, by decide, by decide⟩

/-- C1 amended: for every collection of input maps: the chat merge's output
types are exactly the types present in some input (first-seen order, empty
value lists included), and each type's output list is the first-occurrence
dedup (by trimmed lower-cased form, kept in original trimmed casing) of the
concatenation of the inputs' value lists in input order, hence pairwise
distinct under trimmed lower-cased comparison; the docx merge keeps values in
`normalize_entity` form instead (whitespace-collapsed, title-cased when fully
upper-case and longer than 3 characters), first occurrence by lower-cased
normalized form, drops values normalizing to the empty string, and drops
entity types whose resulting list is empty. -/
theorem C1_merge_contract_amended :
    ∀ dicts : List EntityMap,
      ((chat_merge_entities dicts).map (fun p => p.1) = docxAllTypes dicts)
      ∧ (∀ t l, alookup (chat_merge_entities dicts) t = some l →
          l = specFirstOccurrence (concatValues dicts t)
          ∧ l.Pairwise (fun a b => pyLower (pyStrip a) ≠ pyLower (pyStrip b)))
      ∧ (∀ t l, alookup (docx_merge_entities dicts) t = some l →
          l = specNormFirstOccurrence (concatValues dicts t)
          ∧ l ≠ []
          ∧ l.Pairwise (fun a b => pyLower a ≠ pyLower b)
          ∧ ∀ v ∈ l, ∃ raw ∈ concatValues dicts t,
              v = normalize_entity raw ∧ v ≠ []) := by
  intro dicts
  refine ⟨chat_merge_keys dicts, ?_, ?_⟩
  · intro t l hl
    rw [chat_merge_alookup] at hl
    by_cases h : t ∈ flatKeys (allEntries dicts)
    · rw [if_pos h] at hl
      cases hl
      rw [chatDedupAux_nil]
      exact ⟨rfl, specFirstOccurrence_pairwise _ _ le_rfl⟩
    · rw [if_neg h] at hl
      exact absurd hl (by simp)
  · intro t l hl
    rw [docx_merge_alookup] at hl
    by_cases h : t ∈ docxAllTypes dicts
        ∧ ¬ (docxDedupAux [] (concatValues dicts t)).isEmpty
    · rw [if_pos h] at hl
      cases hl
      rw [docxDedupAux_nil]
      refine ⟨rfl, ?_, specNormFirstOccurrence_pairwise _ _ le_rfl, ?_⟩
      · rw [← docxDedupAux_nil]
        exact fun hh => h.2 (by simp [hh])
      · intro v hv
        obtain ⟨raw, hraw, hv1, hv2⟩ :=
          specNormFirstOccurrence_mem _ _ le_rfl v hv
        exact ⟨raw, hraw, hv1, hv2⟩
    · rw [if_neg h] at hl
      exact absurd hl (by simp)

/-- C1 amended witness: the chat merge branch of the amended theorem applied
at a concrete two-source input with a whitespace/case duplicate. -/
theorem C1_merge_contract_amended_witness :
    ["GS".toList, "MS".toList]
        = specFirstOccurrence [" GS ".toList, "gs".toList, "MS".toList]
    ∧ (["GS".toList, "MS".toList]).Pairwise
        (fun a b => pyLower (pyStrip a) ≠ pyLower (pyStrip b)) := by
  have h := (C1_merge_contract_amended
      [ [("counterparty", [" GS ".toList, "gs".toList])]
      , [("counterparty", ["MS".toList])] ]).2.1 "counterparty"
    ["GS".toList, "MS".toList] (by decide)
  have hc : concatValues
      [ [("counterparty", [" GS ".toList, "gs".toList])]
      , [("counterparty", ["MS".toList])] ] "counterparty"
      = [" GS ".toList, "gs".toList, "MS".toList] := rfl
  rw [hc] at h
  exact h

/-! ## Idempotence machinery (claim C3) -/

theorem alookup_eq_none_iff :
    ∀ (m : EntityMap) (t : String),
      alookup m t = none ↔ t ∉ m.map (fun p => p.1) := by
  intro m
  induction m with
  | nil => intro t; simp [alookup]
  | cons e rest ih =>
    intro t
    by_cases h : e.1 = t
    · simp [alookup, h]
    · simp only [alookup, if_neg h, List.map_cons, List.mem_cons, ih]
      constructor
      · intro hn
        rintro (hh | hh)
        · exact h hh.symm
        · exact hn hh
      · intro hn hh
        exact hn (Or.inr hh)

theorem dedupFirstAux_append :
    ∀ (a b seen : List String),
      dedupFirstAux seen (a ++ b)
        = dedupFirstAux seen a ++ dedupFirstAux (dedupFirstAux seen a ++ seen) b := by
  intro a
  induction a with
  | nil => intro b seen; simp [dedupFirstAux]
  | cons k a' ih =>
    intro b seen
    by_cases hk : k ∈ seen
    · rw [List.cons_append, dedupFirstAux, if_pos hk, dedupFirstAux, if_pos hk, ih]
    · rw [List.cons_append, dedupFirstAux, if_neg hk, dedupFirstAux, if_neg hk,
        ih b (k :: seen)]
      rw [List.cons_append]
      refine congrArg _ (congrArg _ (dedupFirstAux_congr _ ?_))
      intro x
      simp only [List.mem_append, List.mem_cons]
      tauto

theorem flatConcat_append (a b : List (String × List Str)) (t : String) :
    flatConcat (a ++ b) t = flatConcat a t ++ flatConcat b t := by
  simp [flatConcat, List.filter_append]

theorem flatConcat_eq_nil_of_not_mem :
    ∀ (m : List (String × List Str)) (t : String),
      t ∉ flatKeys m → flatConcat m t = [] := by
  intro m
  induction m with
  | nil => intro t _; rfl
  | cons e rest ih =>
    intro t ht
    rw [flatConcat_cons, if_neg (by
      intro hh
      exact ht (by simp [flatKeys, hh]))]
    exact ih t (fun hh => ht (by simp [flatKeys] at hh ⊢; exact Or.inr hh))

theorem flatConcat_eq_of_alookup :
    ∀ (m : EntityMap) (t : String) (vs : List Str),
      (m.map (fun p => p.1)).Nodup → alookup m t = some vs → flatConcat m t = vs := by
  intro m
  induction m with
  | nil => intro t vs _ h; simp [alookup] at h
  | cons e rest ih =>
    intro t vs hnd hl
    rw [List.map_cons] at hnd
    have hpair := List.nodup_cons.mp hnd
    by_cases h : e.1 = t
    · rw [show alookup (e :: rest) t = some e.2 by
        simp only [alookup]; rw [if_pos h]] at hl
      cases hl
      rw [flatConcat_cons, if_pos h]
      have hrest : flatConcat rest t = [] := by
        refine flatConcat_eq_nil_of_not_mem rest t ?_
        intro hmem
        exact hpair.1 (h ▸ hmem)
      rw [hrest, List.append_nil]
    · rw [show alookup (e :: rest) t = alookup rest t by
        simp only [alookup]; rw [if_neg h]] at hl
      rw [flatConcat_cons, if_neg h]
      exact ih t vs hpair.2 hl

theorem alist_ext :
    ∀ (m1 m2 : EntityMap), (m1.map (fun p => p.1)).Nodup →
      m1.map (fun p => p.1) = m2.map (fun p => p.1) →
      (∀ t, alookup m1 t = alookup m2 t) → m1 = m2 := by
  intro m1
  induction m1 with
  | nil =>
    intro m2 _ hk _
    cases m2 with
    | nil => rfl
    | cons f r2 => simp at hk
  | cons e r1 ih =>
    intro m2 hnd hk hl
    cases m2 with
    | nil => simp at hk
    | cons f r2 =>
      simp only [List.map_cons, List.cons.injEq] at hk
      rw [List.map_cons] at hnd
      have hpair := List.nodup_cons.mp hnd
      have he1 : e.1 = f.1 := hk.1
      have hv : e.2 = f.2 := by
        have h1 : alookup (e :: r1) e.1 = some e.2 := by
          simp [alookup]
        have h2 : alookup (f :: r2) e.1 = some f.2 := by
          simp only [alookup]; rw [if_pos he1.symm]
        have hh := (hl e.1).symm.trans h1
        rw [h2] at hh
        exact (Option.some.inj hh).symm
      have hnd1 : (r1.map (fun p => p.1)).Nodup := hpair.2
      have hnot1 : e.1 ∉ r1.map (fun p => p.1) := hpair.1
      have hnot2 : e.1 ∉ r2.map (fun p => p.1) := hk.2 ▸ hnot1
      have htail : ∀ t, alookup r1 t = alookup r2 t := by
        intro t
        by_cases h : t = e.1
        · rw [h]
          rw [(alookup_eq_none_iff r1 e.1).mpr hnot1,
            (alookup_eq_none_iff r2 e.1).mpr hnot2]
        · have h1 : alookup (e :: r1) t = alookup r1 t := by
            simp only [alookup]
            rw [if_neg (fun hh : e.1 = t => h hh.symm)]
          have h2 : alookup (f :: r2) t = alookup r2 t := by
            simp only [alookup]
            rw [if_neg (fun hh : f.1 = t => h (he1.trans hh).symm)]
          rw [← h1, ← h2]
          exact hl t
      have hrest := ih r2 hnd1 hk.2 htail
      rw [hrest]
      have hef : e = f := Prod.ext he1 hv
      rw [hef]

theorem specFirstOccurrence_self_append :
    ∀ vs : List Str, (∀ v ∈ vs, pyStrip v = v) →
      vs.Pairwise (fun a b => pyLower a ≠ pyLower b) →
      specFirstOccurrence (vs ++ vs) = vs := by
  intro vs
  induction vs with
  | nil => intro _ _; simp [specFirstOccurrence]
  | cons v rest ih =>
    intro hstrip hpw
    have hpv := List.pairwise_cons.mp hpw
    have hsv : pyStrip v = v := hstrip v (by simp)
    rw [List.cons_append]
    simp only [specFirstOccurrence]
    rw [hsv]
    refine congrArg _ ?_
    have hfr : rest.filter
        (fun w => pyLower (pyStrip w) ≠ pyLower v) = rest := by
      refine List.filter_eq_self.mpr ?_
      intro w hw
      rw [hstrip w (List.mem_cons_of_mem v hw)]
      simpa using (hpv.1 w hw).symm
    have hfc : (v :: rest).filter
        (fun w => pyLower (pyStrip w) ≠ pyLower v) = rest := by
      rw [List.filter_cons, if_neg (by simp [hsv]), hfr]
    rw [List.filter_append, hfr, hfc]
    exact ih (fun w hw => hstrip w (List.mem_cons_of_mem v hw)) hpv.2

theorem specNormFirstOccurrence_self_append :
    ∀ vs : List Str, (∀ v ∈ vs, normalize_entity v = v ∧ v ≠ []) →
      vs.Pairwise (fun a b => pyLower a ≠ pyLower b) →
      specNormFirstOccurrence (vs ++ vs) = vs := by
  intro vs
  induction vs with
  | nil => intro _ _; simp [specNormFirstOccurrence]
  | cons v rest ih =>
    intro hnorm hpw
    have hpv := List.pairwise_cons.mp hpw
    have hnv : normalize_entity v = v := (hnorm v (by simp)).1
    have hne : v ≠ [] := (hnorm v (by simp)).2
    rw [List.cons_append]
    simp only [specNormFirstOccurrence]
    rw [if_neg (fun hh => hne (hnv.symm.trans hh)), hnv]
    refine congrArg _ ?_
    have hfr : rest.filter
        (fun w => pyLower (normalize_entity w) ≠ pyLower v) = rest := by
      refine List.filter_eq_self.mpr ?_
      intro w hw
      rw [(hnorm w (List.mem_cons_of_mem v hw)).1]
      simpa using (hpv.1 w hw).symm
    have hfc : (v :: rest).filter
        (fun w => pyLower (normalize_entity w) ≠ pyLower v) = rest := by
      rw [List.filter_cons, if_neg (by simp [hnv]), hfr]
    rw [List.filter_append, hfr, hfc]
    exact ih (fun w hw => hnorm w (List.mem_cons_of_mem v hw)) hpv.2

theorem alookup_some_mem :
    ∀ (m : EntityMap) (t : String) (vs : List Str),
      alookup m t = some vs → (t, vs) ∈ m := by
  intro m
  induction m with
  | nil => intro t vs h; simp [alookup] at h
  | cons e rest ih =>
    intro t vs h
    by_cases he : e.1 = t
    · rw [show alookup (e :: rest) t = some e.2 by
        simp only [alookup]; rw [if_pos he]] at h
      cases h
      have hte : (t, e.2) = e := Prod.ext he.symm rfl
      rw [hte]
      exact List.mem_cons_self e rest
    · rw [show alookup (e :: rest) t = alookup rest t by
        simp only [alookup]; rw [if_neg he]] at h
      exact List.mem_cons_of_mem e (ih t vs h)

theorem docx_shape_keys :
    ∀ (keys : List String) (g : String → List Str),
      ((keys.filterMap (fun k =>
          if (g k).isEmpty then none else some (k, g k))).map (fun p => p.1))
        = keys.filter (fun k => !(g k).isEmpty) := by
  intro keys
  induction keys with
  | nil => intro g; rfl
  | cons k ks ih =>
    intro g
    rw [List.filterMap_cons, List.filter_cons]
    by_cases hek : (g k).isEmpty
    · rw [if_pos hek, if_neg (by simp [hek])]
      exact ih g
    · rw [if_neg hek, if_pos (by simp [hek]), List.map_cons, ih g]

/-- C3: merging an entity map with itself yields the same map, for both merge
implementations, whenever the map is in the merge output's own normal form:
unique entity types, non-empty value lists of non-empty values fixed by
`normalize_entity` (hence trimmed), no two values in a list equal
lower-cased. -/
theorem C3_merge_idempotence :
    ∀ m : EntityMap, DedupedNormalizedMap m →
      chat_merge_entities [m, m] = m ∧ docx_merge_entities [m, m] = m := by
  intro m hm
  obtain ⟨hnd, hvals⟩ := hm
  have hAll : allEntries [m, m] = m ++ m := by simp [allEntries]
  have hFlatKeys : flatKeys (allEntries [m, m])
      = m.map (fun p => p.1) ++ m.map (fun p => p.1) := by
    rw [hAll]; simp [flatKeys]
  have hTypes : docxAllTypes [m, m] = m.map (fun p => p.1) := by
    unfold docxAllTypes
    rw [show (allEntries [m, m]).map (fun p => p.1)
        = flatKeys (allEntries [m, m]) from rfl, hFlatKeys]
    rw [dedupFirstAux_append]
    rw [dedupFirstAux_eq_self _ [] hnd (by simp)]
    rw [dedupFirstAux_eq_nil _ _ (fun x hx => by simp [hx])]
    simp
  have hmemlookup : ∀ t, t ∈ m.map (fun p => p.1) →
      ∃ vs, alookup m t = some vs := by
    intro t ht
    cases h : alookup m t with
    | none => exact absurd ht ((alookup_eq_none_iff m t).mp h)
    | some vs => exact ⟨vs, rfl⟩
  have hprops : ∀ t vs, alookup m t = some vs →
      vs ≠ [] ∧ (∀ v ∈ vs, normalize_entity v = v ∧ v ≠ []) ∧
        vs.Pairwise (fun a b => pyLower a ≠ pyLower b) := by
    intro t vs hl
    exact hvals (t, vs) (alookup_some_mem m t vs hl)
  have hval : ∀ t vs, alookup m t = some vs →
      concatValues [m, m] t = vs ++ vs := by
    intro t vs hl
    show flatConcat (allEntries [m, m]) t = vs ++ vs
    rw [hAll, flatConcat_append, flatConcat_eq_of_alookup m t vs hnd hl]
  have hchatval : ∀ t vs, alookup m t = some vs →
      chatDedupAux [] (concatValues [m, m] t) = vs := by
    intro t vs hl
    obtain ⟨-, hnv, hpw⟩ := hprops t vs hl
    rw [hval t vs hl, chatDedupAux_nil]
    exact specFirstOccurrence_self_append vs
      (fun v hv => normalize_fix_strip (hnv v hv).1) hpw
  have hdocxval : ∀ t vs, alookup m t = some vs →
      docxDedupAux [] (concatValues [m, m] t) = vs := by
    intro t vs hl
    obtain ⟨-, hnv, hpw⟩ := hprops t vs hl
    rw [hval t vs hl, docxDedupAux_nil]
    exact specNormFirstOccurrence_self_append vs hnv hpw
  have hdk : (docx_merge_entities [m, m]).map (fun p => p.1)
      = m.map (fun p => p.1) := by
    rw [show docx_merge_entities [m, m]
        = (docxAllTypes [m, m]).filterMap (fun t =>
            if (docxDedupAux [] (concatValues [m, m] t)).isEmpty then none
            else some (t, docxDedupAux [] (concatValues [m, m] t))) from rfl]
    rw [docx_shape_keys, hTypes]
    refine List.filter_eq_self.mpr ?_
    intro t ht
    obtain ⟨vs, hl⟩ := hmemlookup t ht
    obtain ⟨hne, -, -⟩ := hprops t vs hl
    rw [hdocxval t vs hl]
    simpa [List.isEmpty_iff] using hne
  constructor
  · refine alist_ext _ m ?_ ?_ ?_
    · rw [chat_merge_keys, hTypes]; exact hnd
    · rw [chat_merge_keys, hTypes]
    · intro t
      rw [chat_merge_alookup]
      by_cases ht : t ∈ m.map (fun p => p.1)
      · have htm : t ∈ flatKeys (allEntries [m, m]) := by
          rw [hFlatKeys]; simp [ht]
        rw [if_pos htm]
        obtain ⟨vs, hl⟩ := hmemlookup t ht
        rw [hl, hchatval t vs hl]
      · have htm : t ∉ flatKeys (allEntries [m, m]) := by
          rw [hFlatKeys]; simp [ht]
        rw [if_neg htm]
        exact ((alookup_eq_none_iff m t).mpr ht).symm
  · refine alist_ext _ m ?_ ?_ ?_
    · rw [hdk]; exact hnd
    · rw [hdk]
    · intro t
      rw [docx_merge_alookup]
      by_cases ht : t ∈ m.map (fun p => p.1)
      · obtain ⟨vs, hl⟩ := hmemlookup t ht
        obtain ⟨hne, -, -⟩ := hprops t vs hl
        have hcc := hdocxval t vs hl
        rw [if_pos ⟨hTypes ▸ ht, by rw [hcc]; simpa [List.isEmpty_iff] using hne⟩]
        rw [hcc, hl]
      · rw [if_neg (by rw [hTypes]; exact fun hc => ht hc.1)]
        exact ((alookup_eq_none_iff m t).mpr ht).symm

/-- C3 witness: idempotence applied at a concrete normalized two-type map. -/
theorem C3_merge_idempotence_witness :
    chat_merge_entities
        [ [("counterparty", ["Goldman Sachs".toList, "Ubs".toList]), ("coupon", ["5%".toList])]
        , [("counterparty", ["Goldman Sachs".toList, "Ubs".toList]), ("coupon", ["5%".toList])] ]
      = [("counterparty", ["Goldman Sachs".toList, "Ubs".toList]), ("coupon", ["5%".toList])]
    ∧ docx_merge_entities
        [ [("counterparty", ["Goldman Sachs".toList, "Ubs".toList]), ("coupon", ["5%".toList])]
        , [("counterparty", ["Goldman Sachs".toList, "Ubs".toList]), ("coupon", ["5%".toList])] ]
      = [("counterparty", ["Goldman Sachs".toList, "Ubs".toList]), ("coupon", ["5%".toList])] :=
  C3_merge_idempotence
    [("counterparty", ["Goldman Sachs".toList, "Ubs".toList]), ("coupon", ["5%".toList])]
    (by unfold DedupedNormalizedMap; decide)

/-! ## Classifier lemmas -/

theorem qlookup_scoresMap :
    ∀ (l : List Category) (f : Category → ℚ) (c : Category), c ∈ l →
      (l.map (fun x => x.name)).Nodup →
      qlookup (l.map (fun x => (x.name, f x))) c.name = some (f c) := by
  intro l
  induction l with
  | nil => intro f c hc _; simp at hc
  | cons d rest ih =>
    intro f c hc hnd
    rw [List.map_cons] at hnd
    have hpair := List.nodup_cons.mp hnd
    rcases List.mem_cons.mp hc with rfl | hc
    · rw [List.map_cons, qlookup, if_pos rfl]
    · have hdc : ¬ (d.name = c.name) := by
        intro hh
        exact hpair.1 (hh ▸ List.mem_map_of_mem (fun x => x.name) hc)
      rw [List.map_cons, qlookup, if_neg hdc]
      exact ih f c hc hpair.2

theorem qlookup_bumpScore (s : List (String × ℚ)) (k : String) (delta : ℚ) (t : String) :
    qlookup (bumpScore s k delta) t
      = if t = k then (qlookup s t).map (fun x => x + delta) else qlookup s t := by
  induction s with
  | nil => by_cases h : t = k <;> simp [bumpScore, qlookup, h]
  | cons p rest ih =>
    simp only [bumpScore] at ih ⊢
    rw [List.map_cons]
    by_cases hpk : p.1 = k
    · rw [if_pos hpk]
      by_cases htk : t = k
      · have hpt : p.1 = t := hpk.trans htk.symm
        rw [qlookup, if_pos hpt, qlookup, if_pos hpt, if_pos htk]
        rfl
      · have hpt : ¬ (p.1 = t) := fun hh => htk (hh.symm.trans hpk)
        rw [qlookup, if_neg hpt, qlookup, if_neg hpt, ih, if_neg htk]
    · rw [if_neg hpk]
      by_cases hpt : p.1 = t
      · have htk : ¬ (t = k) := fun hh => hpk (hpt.trans hh)
        rw [qlookup, if_pos hpt, qlookup, if_pos hpt, if_neg htk]
      · rw [qlookup, if_neg hpt, qlookup, if_neg hpt, ih]


theorem qlookup_condBump (s : List (String × ℚ)) (b : Bool) (k : String) (d : ℚ)
    (t : String) :
    qlookup (if b then bumpScore s k d else s) t
      = (qlookup s t).map (fun x => x + (if b = true ∧ t = k then d else 0)) := by
  cases b
  · cases hq : qlookup s t <;> simp [hq]
  · rw [if_pos rfl, qlookup_bumpScore]
    by_cases ht : t = k
    · rw [if_pos ht, if_pos (⟨rfl, ht⟩ : true = true ∧ t = k)]
    · rw [if_neg ht, if_neg (fun h : true = true ∧ t = k => ht h.2)]
      cases hq : qlookup s t <;> simp

theorem if_and_split (P Q : Prop) [Decidable P] [Decidable Q] (d : ℚ) :
    (if P ∧ Q then d else 0) = (if P then (if Q then d else 0) else 0) := by
  by_cases hp : P <;> by_cases hq : Q <;> simp [hp, hq]

theorem ifBump_two (s : List (String × ℚ)) (b : Bool) (k1 : String) (d1 : ℚ)
    (k2 : String) (d2 : ℚ) :
    (if b then bumpScore (bumpScore s k1 d1) k2 d2 else s)
      = (if b then bumpScore (if b then bumpScore s k1 d1 else s) k2 d2
         else (if b then bumpScore s k1 d1 else s)) := by
  cases b <;> simp

set_option maxHeartbeats 2000000 in
theorem qlookup_adjust (s : List (String × ℚ)) (e : EntityMap) (t : String) :
    qlookup (adjust_with_entities s e) t
      = (qlookup s t).map (fun x => x + specBoost t e) := by
  unfold adjust_with_entities
  rw [ifBump_two, qlookup_condBump, qlookup_condBump, qlookup_condBump,
    qlookup_condBump, qlookup_condBump]
  unfold specBoost
  cases hq : qlookup s t
  · rfl
  · simp only [Option.map_some', Option.some.injEq]
    simp only [if_and_split]
    split_ifs <;> ring

theorem specBoost_nil (t : String) : specBoost t [] = 0 := by
  simp [specBoost, entNonempty, alookup]

theorem bumpScore_length (s : List (String × ℚ)) (k : String) (d : ℚ) :
    (bumpScore s k d).length = s.length := by
  simp [bumpScore]

theorem adjust_length (s : List (String × ℚ)) (e : EntityMap) :
    (adjust_with_entities s e).length = s.length := by
  unfold adjust_with_entities
  split_ifs <;> simp [bumpScore_length]

theorem classifyScores_none (text : Str) :
    classifyScores text none = baseScores text := rfl

theorem classifyScores_some (text : Str) (e : EntityMap) :
    classifyScores text (some e)
      = if e.isEmpty then baseScores text
        else adjust_with_entities (baseScores text) e := rfl

theorem classifyScores_length (text : Str) (ents : Option EntityMap) :
    (classifyScores text ents).length = 8 := by
  have hb : (baseScores text).length = 8 := by
    simp [baseScores, categories]
  cases ents with
  | none => rw [classifyScores_none]; exact hb
  | some e =>
    rw [classifyScores_some]
    by_cases he : e.isEmpty
    · rw [if_pos he]; exact hb
    · rw [if_neg he, adjust_length]; exact hb

theorem categories_weight_pos : ∀ c ∈ categories, 0 < c.weight := by
  intro c hc
  fin_cases hc <;> norm_num

theorem baseScores_nonneg (text : Str) : ∀ q ∈ baseScores text, 0 ≤ q.2 := by
  intro q hq
  simp only [baseScores, List.mem_map] at hq
  obtain ⟨c, hc, rfl⟩ := hq
  have hw := categories_weight_pos c hc
  have h1 : (0 : ℚ) ≤ (keywordHits c.keywords (pyLower text) : ℚ) * (3/10) :=
    mul_nonneg (Nat.cast_nonneg _) (by norm_num)
  have h2 : (0 : ℚ) ≤ (patternHits c.patterns (pyLower text) : ℚ) * (1/2) :=
    mul_nonneg (Nat.cast_nonneg _) (by norm_num)
  exact mul_nonneg (add_nonneg h1 h2) (le_of_lt hw)

theorem bumpScore_nonneg (s : List (String × ℚ)) (k : String) (d : ℚ)
    (hs : ∀ q ∈ s, 0 ≤ q.2) (hd : 0 ≤ d) : ∀ q ∈ bumpScore s k d, 0 ≤ q.2 := by
  intro q hq
  simp only [bumpScore, List.mem_map] at hq
  obtain ⟨p, hp, rfl⟩ := hq
  by_cases hpk : p.1 = k
  · rw [if_pos hpk]
    exact add_nonneg (hs p hp) hd
  · rw [if_neg hpk]
    exact hs p hp

theorem adjust_nonneg (s : List (String × ℚ)) (e : EntityMap)
    (hs : ∀ q ∈ s, 0 ≤ q.2) : ∀ q ∈ adjust_with_entities s e, 0 ≤ q.2 := by
  unfold adjust_with_entities
  split_ifs <;>
    first
    | exact hs
    | (apply bumpScore_nonneg _ _ _ _ (by norm_num)
       first
       | exact hs
       | (apply bumpScore_nonneg _ _ _ _ (by norm_num)
          first
          | exact hs
          | (apply bumpScore_nonneg _ _ _ _ (by norm_num)
             first
             | exact hs
             | (apply bumpScore_nonneg _ _ _ _ (by norm_num)
                first
                | exact hs
                | exact bumpScore_nonneg _ _ _ hs (by norm_num)))))

theorem classifyScores_nonneg (text : Str) (ents : Option EntityMap) :
    ∀ q ∈ classifyScores text ents, 0 ≤ q.2 := by
  cases ents with
  | none => rw [classifyScores_none]; exact baseScores_nonneg text
  | some e =>
    rw [classifyScores_some]
    by_cases he : e.isEmpty
    · rw [if_pos he]; exact baseScores_nonneg text
    · rw [if_neg he]; exact adjust_nonneg _ _ (baseScores_nonneg text)

theorem pyMaxPair_ge (l : List (String × ℚ)) :
    ∀ best : String × ℚ, best.2 ≤ (pyMaxPair best l).2
      ∧ ∀ q ∈ l, q.2 ≤ (pyMaxPair best l).2 := by
  induction l with
  | nil =>
    intro best
    exact ⟨le_refl _, by intro q hq; simp at hq⟩
  | cons q rest ih =>
    intro best
    rw [pyMaxPair]
    obtain ⟨h1, h2⟩ := ih (if q.2 > best.2 then q else best)
    have hb : best.2 ≤ (if q.2 > best.2 then q else best).2 := by
      split_ifs with h
      · exact le_of_lt h
      · exact le_refl _
    have hq : q.2 ≤ (if q.2 > best.2 then q else best).2 := by
      split_ifs with h
      · exact le_refl _
      · exact le_of_not_lt h
    refine ⟨le_trans hb h1, ?_⟩
    intro r hr
    rcases List.mem_cons.mp hr with rfl | hr
    · exact le_trans hq h1
    · exact h2 r hr

theorem pyMaxPair_mem (l : List (String × ℚ)) :
    ∀ best : String × ℚ, pyMaxPair best l = best ∨ pyMaxPair best l ∈ l := by
  induction l with
  | nil => intro best; exact Or.inl rfl
  | cons q rest ih =>
    intro best
    rw [pyMaxPair]
    rcases ih (if q.2 > best.2 then q else best) with h | h
    · rw [h]
      split_ifs with hgt
      · exact Or.inr (List.mem_cons_self _ _)
      · exact Or.inl rfl
    · exact Or.inr (List.mem_cons_of_mem _ h)

theorem isFirstMax_mem (l : List (String × ℚ)) (k : String) (v : ℚ)
    (h : isFirstMax l k v = true) : (k, v) ∈ l := by
  induction l with
  | nil => simp [isFirstMax] at h
  | cons p rest ih =>
    simp only [isFirstMax, Bool.or_eq_true, Bool.and_eq_true, decide_eq_true_eq] at h
    rcases h with ⟨⟨hk, hv⟩, _⟩ | ⟨_, h⟩
    · have hp : p = (k, v) := Prod.ext hk hv
      rw [← hp]
      exact List.mem_cons_self _ _
    · exact List.mem_cons_of_mem _ (ih h)

theorem isFirstMax_unique (l : List (String × ℚ)) (k k' : String) (v v' : ℚ)
    (h : isFirstMax l k v = true) (h' : isFirstMax l k' v' = true) :
    k = k' ∧ v = v' := by
  induction l with
  | nil => simp [isFirstMax] at h
  | cons p rest ih =>
    simp only [isFirstMax, Bool.or_eq_true, Bool.and_eq_true, decide_eq_true_eq,
      List.all_eq_true] at h h'
    rcases h with ⟨⟨hk, hv⟩, hall⟩ | ⟨hlt, h⟩
    · rcases h' with ⟨⟨hk', hv'⟩, _⟩ | ⟨hlt', h'⟩
      · exact ⟨hk.symm.trans hk', hv.symm.trans hv'⟩
      · exfalso
        have hmem := isFirstMax_mem rest k' v' h'
        have : v' ≤ v := by
          have := hall (k', v') hmem
          simpa using this
        exact absurd (lt_of_le_of_lt (hv ▸ le_refl p.2) hlt') (not_lt.mpr (hv ▸ this))
    · rcases h' with ⟨⟨hk', hv'⟩, hall'⟩ | ⟨hlt', h'⟩
      · exfalso
        have hmem := isFirstMax_mem rest k v h
        have : v ≤ v' := by
          have := hall' (k, v) hmem
          simpa using this
        exact absurd (lt_of_le_of_lt (hv' ▸ le_refl p.2) hlt) (not_lt.mpr (hv' ▸ this))
      · exact ih h h'

theorem pyMaxPair_isFirstMax (l : List (String × ℚ)) :
    ∀ best : String × ℚ,
      isFirstMax (best :: l) (pyMaxPair best l).1 (pyMaxPair best l).2 = true := by
  induction l with
  | nil =>
    intro best
    simp [pyMaxPair, isFirstMax]
  | cons q rest ih =>
    intro best
    rw [pyMaxPair]
    by_cases hgt : q.2 > best.2
    · rw [if_pos hgt]
      have hr := ih q
      have hge := (pyMaxPair_ge rest q).1
      simp only [isFirstMax, Bool.or_eq_true, Bool.and_eq_true, decide_eq_true_eq] at hr ⊢
      right
      exact ⟨lt_of_lt_of_le hgt hge, hr⟩
    · rw [if_neg hgt]
      have hr := ih best
      have hqle : q.2 ≤ best.2 := le_of_not_lt hgt
      have hge := (pyMaxPair_ge rest best).1
      simp only [isFirstMax, Bool.or_eq_true, Bool.and_eq_true, decide_eq_true_eq,
        List.all_eq_true] at hr ⊢
      rcases hr with ⟨⟨hk, hv⟩, hall⟩ | ⟨hlt, hfm⟩
      · left
        refine ⟨⟨hk, hv⟩, ?_⟩
        intro r hr
        rcases List.mem_cons.mp hr with rfl | hr
        · exact le_trans hqle (hv ▸ hge)
        · exact hall r hr
      · right
        refine ⟨hlt, ?_⟩
        right
        exact ⟨lt_of_le_of_lt hqle hlt, hfm⟩

theorem insertDesc_perm (p : String × ℚ) (l : List (String × ℚ)) :
    (insertDesc p l).Perm (p :: l) := by
  induction l with
  | nil => exact List.Perm.refl _
  | cons q rest ih =>
    rw [insertDesc]
    split_ifs with h
    · exact List.Perm.refl _
    · exact (List.Perm.cons q ih).trans (List.Perm.swap p q rest)

theorem sortDesc_perm (l : List (String × ℚ)) : (sortDesc l).Perm l := by
  induction l with
  | nil => exact List.Perm.refl _
  | cons p rest ih =>
    exact (insertDesc_perm p (sortDesc rest)).trans (List.Perm.cons p ih)

theorem insertDesc_sorted (p : String × ℚ) (l : List (String × ℚ))
    (h : l.Pairwise (fun a b => b.2 ≤ a.2)) :
    (insertDesc p l).Pairwise (fun a b => b.2 ≤ a.2) := by
  induction l with
  | nil => exact List.pairwise_singleton _ _
  | cons q rest ih =>
    rw [insertDesc]
    obtain ⟨hq, hrest⟩ := List.pairwise_cons.mp h
    split_ifs with hpq
    · refine List.pairwise_cons.mpr ⟨?_, h⟩
      intro b hb
      rcases List.mem_cons.mp hb with rfl | hb
      · exact hpq
      · exact le_trans (hq b hb) hpq
    · refine List.pairwise_cons.mpr ⟨?_, ih hrest⟩
      intro b hb
      have hb' : b ∈ p :: rest := (insertDesc_perm p rest).mem_iff.mp hb
      rcases List.mem_cons.mp hb' with rfl | hb'
      · exact le_of_lt (lt_of_not_ge hpq)
      · exact hq b hb'

theorem sortDesc_sorted (l : List (String × ℚ)) :
    (sortDesc l).Pairwise (fun a b => b.2 ≤ a.2) := by
  induction l with
  | nil => exact List.Pairwise.nil
  | cons p rest ih => exact insertDesc_sorted p (sortDesc rest) ih

theorem categories_names_nodup : (categories.map (fun x => x.name)).Nodup := by
  simp [categories]

theorem baseScores_eq (text : Str) :
    baseScores text
      = categories.map (fun c =>
          (c.name, ((keywordHits c.keywords (pyLower text) : ℚ) * (3/10)
            + (patternHits c.patterns (pyLower text) : ℚ) * (1/2)) * c.weight)) := rfl

theorem qlookup_classifyScores (text : Str) (ents : Option EntityMap)
    (c : Category) (hc : c ∈ categories) :
    qlookup (classifyScores text ents) c.name
      = some ((((keywordHits c.keywords (pyLower text) : ℚ)) * (3/10)
          + ((patternHits c.patterns (pyLower text) : ℚ)) * (1/2)) * c.weight
          + (match ents with
             | none => 0
             | some e => specBoost c.name e)) := by
  have hbase := qlookup_scoresMap categories
    (fun c => ((keywordHits c.keywords (pyLower text) : ℚ) * (3/10)
      + (patternHits c.patterns (pyLower text) : ℚ) * (1/2)) * c.weight)
    c hc categories_names_nodup
  rw [← baseScores_eq] at hbase
  cases ents with
  | none =>
    rw [classifyScores_none, hbase]
    norm_num
  | some e =>
    rw [classifyScores_some]
    by_cases he : e.isEmpty
    · have he' : e = [] := List.isEmpty_iff.mp he
      rw [if_pos he, hbase, he']
      simp [specBoost_nil]
    · rw [if_neg he, qlookup_adjust, hbase, Option.map_some']

theorem classify_cons (text : Str) (ents : Option EntityMap) (p : String × ℚ)
    (rest : List (String × ℚ)) (hs : classifyScores text ents = p :: rest) :
    classify text ents
      = if (pyMaxPair p rest).2 = 0 then ⟨"Unknown", []⟩
        else ⟨format_category_name (pyMaxPair p rest).1,
          ((sortDesc (p :: rest)).take 3).map
            (fun q => (format_category_name q.1, round2 q.2))⟩ := by
  unfold classify
  rw [hs]

/-- C7: classifier scoring. Each category's score in the classifier's table
equals (keyword substring hits in the lower-cased text × 0.3 + regex pattern
hits × 0.5) × the category weight, plus — exactly when an entity map is
supplied — the fixed entity boosts of `specBoost` (any `isin` value adds +0.5
to structured_note and +0.3 to trade_confirmation, any `trade_references`
value adds +0.6 to trade_confirmation, more than one `person` entity adds
+0.4 to trading_chat, non-empty `coupon` together with non-empty `barrier`
adds +0.6 to structured_note); and the winning document type is the arg-max
category of the table, ties broken by table insertion order. -/
theorem C7_classifier_scoring (text : Str) (ents : Option EntityMap) :
    (∀ c ∈ categories,
      qlookup (classifyScores text ents) c.name
        = some ((((keywordHits c.keywords (pyLower text) : ℚ)) * (3/10)
            + ((patternHits c.patterns (pyLower text) : ℚ)) * (1/2)) * c.weight
            + (match ents with
               | none => 0
               | some e => specBoost c.name e)))
    ∧ (∀ (k : String) (v : ℚ), isFirstMax (classifyScores text ents) k v = true →
        v ≠ 0 → (classify text ents).document_type = format_category_name k) := by
  refine ⟨fun c hc => qlookup_classifyScores text ents c hc, ?_⟩
  intro k v hk hv
  cases hs : classifyScores text ents with
  | nil =>
    exfalso
    have hlen := classifyScores_length text ents
    rw [hs] at hlen
    simp at hlen
  | cons p rest =>
    rw [hs] at hk
    have hfm := pyMaxPair_isFirstMax rest p
    obtain ⟨hk1, hv1⟩ := isFirstMax_unique (p :: rest) k (pyMaxPair p rest).1
      v (pyMaxPair p rest).2 hk hfm
    rw [classify_cons text ents p rest hs, if_neg (fun h0 => hv (hv1.trans h0)), hk1]

/-- C8: classifier zero case. If every score in the table (after any entity
boosts) is zero, `classify` returns the sentinel `Unknown` with an empty score
table; if some score is non-zero it returns a non-empty table holding the top
3 entries of the descending stable sort of the scores, names formatted and
scores rounded to 2 decimal places; in particular a text with no keyword and
no pattern hits, classified without entities, yields `Unknown` with an empty
table. -/
theorem C8_classifier_zero_case (text : Str) (ents : Option EntityMap) :
    ((∀ q ∈ classifyScores text ents, q.2 = 0)
        → classify text ents = ⟨"Unknown", []⟩)
    ∧ ((∃ q ∈ classifyScores text ents, q.2 ≠ 0) →
        ∃ sorted : List (String × ℚ),
          sorted.Perm (classifyScores text ents)
          ∧ sorted.Pairwise (fun a b => b.2 ≤ a.2)
          ∧ (classify text ents).all_scores
              = (sorted.take 3).map (fun q => (format_category_name q.1, round2 q.2))
          ∧ (classify text ents).all_scores ≠ [])
    ∧ ((∀ c ∈ categories, keywordHits c.keywords (pyLower text) = 0
          ∧ patternHits c.patterns (pyLower text) = 0)
        → classify text none = ⟨"Unknown", []⟩) := by
  have hzero : ∀ ents' : Option EntityMap,
      (∀ q ∈ classifyScores text ents', q.2 = 0)
        → classify text ents' = ⟨"Unknown", []⟩ := by
    intro ents' hall
    cases hs : classifyScores text ents' with
    | nil =>
      unfold classify
      rw [hs]
    | cons p rest =>
      rw [hs] at hall
      have hmax : (pyMaxPair p rest).2 = 0 := by
        rcases pyMaxPair_mem rest p with hm | hm
        · rw [hm]
          exact hall p (List.mem_cons_self _ _)
        · exact hall _ (List.mem_cons_of_mem _ hm)
      rw [classify_cons text ents' p rest hs, if_pos hmax]
  refine ⟨hzero ents, ?_, ?_⟩
  · rintro ⟨q, hq, hqne⟩
    have hq0 : 0 ≤ q.2 := classifyScores_nonneg text ents q hq
    cases hs : classifyScores text ents with
    | nil =>
      rw [hs] at hq
      simp at hq
    | cons p rest =>
      rw [hs] at hq
      have hle : q.2 ≤ (pyMaxPair p rest).2 := by
        rcases List.mem_cons.mp hq with rfl | hq'
        · exact (pyMaxPair_ge rest _).1
        · exact (pyMaxPair_ge rest p).2 q hq'
      have hpos : 0 < q.2 := lt_of_le_of_ne hq0 (Ne.symm hqne)
      have hmaxne : (pyMaxPair p rest).2 ≠ 0 := ne_of_gt (lt_of_lt_of_le hpos hle)
      rw [classify_cons text ents p rest hs, if_neg hmaxne]
      refine ⟨sortDesc (p :: rest), sortDesc_perm _, sortDesc_sorted _, rfl, ?_⟩
      · cases hsd : sortDesc (p :: rest) with
        | nil =>
          exfalso
          have hpl := (sortDesc_perm (p :: rest)).length_eq
          rw [hsd] at hpl
          simp at hpl
        | cons a l => simp [hsd]
  · intro hhits
    apply hzero none
    intro q hq
    rw [classifyScores_none, baseScores_eq] at hq
    obtain ⟨c, hc, rfl⟩ := List.mem_map.mp hq
    obtain ⟨hk0, hp0⟩ := hhits c hc
    simp [hk0, hp0]

section

attribute [local semireducible] Rat.add Rat.mul Rat.sub Rat.inv Rat.ofScientific

/-- Witness for C7: on the text `"structured note"` without entities the
structured_note score is (1 keyword hit × 0.3 + 1 pattern hit × 0.5) × 0.95
= 0.76 = 19/25, and the classified document type is `"Structured Note"`. -/
theorem C7_classifier_scoring_witness :
    qlookup (classifyScores "structured note".toList none) "structured_note"
        = some (19/25)
    ∧ (classify "structured note".toList none).document_type
        = "Structured Note" := by
  constructor
  · exact ((C7_classifier_scoring "structured note".toList none).1
      (categories.get ⟨3, by decide⟩) (List.get_mem _ _ _)).trans (by decide)
  · exact ((C7_classifier_scoring "structured note".toList none).2
      "structured_note" (19/25) (by decide) (by decide)).trans (by decide)

/-- Witness for C8: the text `"xyz"` hits no keyword and no pattern and
classifies as `Unknown` with an empty score table, while `"invoice 42"` has a
non-zero invoice score (0.72 = 18/25) and yields a non-empty score table. -/
theorem C8_classifier_zero_case_witness :
    classify "xyz".toList none = ⟨"Unknown", []⟩
    ∧ (classify "invoice 42".toList none).all_scores ≠ [] := by
  constructor
  · exact (C8_classifier_zero_case "xyz".toList none).1 (by decide)
  · obtain ⟨s, hperm, hsort, heq, hne⟩ :=
      (C8_classifier_zero_case "invoice 42".toList none).2.1
        ⟨("invoice", 18/25), by decide, by decide⟩
    exact hne

end
